import Mathlib

/-!
Verification of the upmap planner (pgremapper): a shallow embedding of the
placement / backfill data model, the remap algebra (`tryRemap`), reservation
accounting (`addReservations` / `removeReservations` / `accountForRemap` /
`hasRoomForRemap`), the CRUSH-locality check (`isCandidateMapping`), the
degraded-acting reconstruction (`getCompletePeers`), the cancel-backfill
per-slot filter, and the balance-bucket PG counting (`getUpPGsForOsds`),
together with theorems settling the specification claims about them.

Go `int` is modelled as `Int`; Go maps that are only ever read pointwise are
modelled as total functions with the Go zero-value (or on-demand-created
value) as default; Go panics are modelled by `Option` (`none` = panic).
-/

namespace PgRemapper

/-- Decidability of the string order routed through the character-list
order, so that comparisons of concrete PG ids evaluate. -/
instance instDecidableLtStr (s t : String) : Decidable (s < t) :=
  decidable_of_iff (s.toList < t.toList) String.lt_iff_toList_lt.symm

/-- Decidability of the reflexive string order, likewise routed through the
character-list order. -/
instance instDecidableLeStr (s t : String) : Decidable (s ≤ t) :=
  decidable_of_iff (s.toList ≤ t.toList) String.le_iff_toList_le.symm

/-- The sentinel OSD id (`math.MaxInt32`), denoting a missing slot. -/
def invalidOSD : Int := 2147483647

/-- One `(from, to)` entry of an upmap exception-table item, with its
ephemeral dirty flag (field `From` is capitalized as in the source; `from`
is a Lean keyword). -/
structure mapping where
  From : Int
  To : Int
  dirty : Bool
deriving DecidableEq

/-- A per-PG upmap exception-table item. -/
structure pgUpmapItem where
  PgID : String
  Mappings : List mapping
  removedMappings : List mapping
  staleMappings : List mapping
  dirty : Bool
deriving DecidableEq

/-- A PG brief: its id, state string, and up/acting vectors. -/
structure pgBriefItem where
  PgID : String
  State : String
  Up : List Int
  Acting : List Int
deriving DecidableEq

/-- Per-OSD backfill counters (`osdBackfillState` in the source). -/
structure osdBackfillState where
  localReservations : Int
  remoteReservations : Int
  maxBackfillReservations : Int
  backfillsFrom : Int
deriving DecidableEq

/-- The value `bs.osd(osd)` creates on demand for a missing map entry. -/
def defaultOsdBackfillState : osdBackfillState :=
  { localReservations := 0, remoteReservations := 0
    maxBackfillReservations := -1, backfillsFrom := 0 }

/-- The backfill state: per-OSD counters, the PG briefs, and the global
maxima. The Go maps `osds` and `pgbs` are only read pointwise and never
iterated, so they are modelled as functions (`osds` with the on-demand
default, `pgbs` with `none` for a missing PG). -/
structure backfillState where
  osds : Int → osdBackfillState
  pgbs : String → Option pgBriefItem
  maxBackfillsFrom : Int
  maxBackfillReservations : Int

/-- Pointwise update of the per-OSD counter map. -/
def updOsd (f : Int → osdBackfillState) (o : Int)
    (g : osdBackfillState → osdBackfillState) : Int → osdBackfillState :=
  fun x => if x = o then g (f x) else f x

/-- Pointwise update of the PG-brief map. -/
def updPgb (f : String → Option pgBriefItem) (pgid : String)
    (pgb : pgBriefItem) : String → Option pgBriefItem :=
  fun x => if x = pgid then some pgb else f x

/-- `pgb.primaryOsd()`: the first non-`invalidOSD` entry of acting; the Go
code panics when there is none (modelled as `none`). -/
def primaryOsd (pgb : pgBriefItem) : Option Int :=
  pgb.Acting.find? (fun osd => osd ≠ invalidOSD)

/-- `computeBackfillSrcsTgts`: for each slot `i` (Go iterates the indices of
`acting`; up and acting have equal length for sanitized PGs, so the zip is
exact) with `up[i] != acting[i]`, emit `acting[i]` as a source and `up[i]`
as a target. There is no check against `invalidOSD`. -/
def computeBackfillSrcsTgts (pgb : pgBriefItem) : List Int × List Int :=
  let pairs := (List.zip pgb.Up pgb.Acting).filter (fun p => p.1 ≠ p.2)
  (pairs.map Prod.snd, pairs.map Prod.fst)

/-- One `backfillsFrom` increment (`bs.osd(osd).backfillsFrom++`). -/
def bumpBackfillsFrom (f : Int → osdBackfillState) (o : Int) :
    Int → osdBackfillState :=
  updOsd f o (fun s => { s with backfillsFrom := s.backfillsFrom + 1 })

/-- One `remoteReservations` increment. -/
def bumpRemote (f : Int → osdBackfillState) (o : Int) :
    Int → osdBackfillState :=
  updOsd f o (fun s => { s with remoteReservations := s.remoteReservations + 1 })

/-- One `localReservations` increment. -/
def bumpLocal (f : Int → osdBackfillState) (o : Int) :
    Int → osdBackfillState :=
  updOsd f o (fun s => { s with localReservations := s.localReservations + 1 })

/-- `bs.addReservations(pgb)`: increment `backfillsFrom` for each source,
`remoteReservations` for each target, and `localReservations` of the primary
once if there is any target. `none` models the panic in `primaryOsd`. -/
def addReservations (bs : backfillState) (pgb : pgBriefItem) :
    Option backfillState :=
  let (srcs, tgts) := computeBackfillSrcsTgts pgb
  let f1 := srcs.foldl bumpBackfillsFrom bs.osds
  let f2 := tgts.foldl bumpRemote f1
  if tgts.isEmpty then
    some { bs with osds := f2 }
  else
    match primaryOsd pgb with
    | none => none
    | some p => some { bs with osds := bumpLocal f2 p }

/-- One checked `backfillsFrom` decrement; the Go code panics (`none`) when
the counter is exactly zero. -/
def decBackfillsFrom (f : Int → osdBackfillState) (o : Int) :
    Option (Int → osdBackfillState) :=
  if (f o).backfillsFrom = 0 then none
  else some (updOsd f o (fun s => { s with backfillsFrom := s.backfillsFrom - 1 }))

/-- One checked `remoteReservations` decrement. -/
def decRemote (f : Int → osdBackfillState) (o : Int) :
    Option (Int → osdBackfillState) :=
  if (f o).remoteReservations = 0 then none
  else some (updOsd f o (fun s => { s with remoteReservations := s.remoteReservations - 1 }))

/-- One checked `localReservations` decrement. -/
def decLocal (f : Int → osdBackfillState) (o : Int) :
    Option (Int → osdBackfillState) :=
  if (f o).localReservations = 0 then none
  else some (updOsd f o (fun s => { s with localReservations := s.localReservations - 1 }))

/-- `bs.removeReservations(pgb)`: the inverse of `addReservations`, with the
zero-counter panics modelled as `none`. -/
def removeReservations (bs : backfillState) (pgb : pgBriefItem) :
    Option backfillState := do
  let (srcs, tgts) := computeBackfillSrcsTgts pgb
  let f1 ← srcs.foldlM decBackfillsFrom bs.osds
  let f2 ← tgts.foldlM decRemote f1
  if tgts.isEmpty then
    pure { bs with osds := f2 }
  else
    match primaryOsd pgb with
    | none => none
    | some p => do
      let f3 ← decLocal f2 p
      pure { bs with osds := f3 }

/-- The in-place swap closure `swapUp(i1, i2)` of `reorderUpToMatchActing`
(`part_002`): swap two positions of the up vector. Indices are in range at
every call site; the `getD` defaults are never used. -/
def swapUp (up : List Int) (i1 i2 : Nat) : List Int :=
  if i1 = i2 then up
  else (up.set i1 (up.getD i2 0)).set i2 (up.getD i1 0)

/-- The inner scan of the reorder loop: the first up index whose entry
equals the acting OSD, or is the target of an upmap mapping whose source is
the acting OSD (the two `if`s of the Go inner loop, checked in order with
`break`). -/
def reorderScanIdx (mappings : Int → Option Int) (up : List Int)
    (actOsd : Int) : Option Nat :=
  up.findIdx? (fun upOsd => upOsd == actOsd || mappings upOsd == some actOsd)

/-- One iteration of the outer loop of `reorderUpToMatchActing`: for the
acting index `ai`, swap the first matching up entry into place (the index
is always in range, so the `getD` default is never consulted). -/
def reorderStep (mappings : Int → Option Int) (acting : List Int)
    (up : List Int) (ai : Nat) : List Int :=
  match reorderScanIdx mappings up (acting.getD ai 0) with
  | some ui => swapUp up ui ai
  | none => up

/-- The outer loop of `reorderUpToMatchActing` over acting indices. -/
def reorderGo (mappings : Int → Option Int) (acting : List Int) (ai : Nat)
    (up : List Int) : List Int :=
  (List.range acting.length).drop ai |>.foldl (reorderStep mappings acting) up

/-- `reorderUpToMatchActing(pgid, up, acting, useUpmap)`: a no-op for EC
pools; otherwise, for each acting index in order, swap the first matching
up entry (equal to the acting OSD, or mapped from it by an upmap to→from
mapping) into that index. The `PgUsesEC` pool lookup is resolved by the
caller; the to→from map is `fun _ => none` when `useUpmap` is false. -/
def reorderUpToMatchActing (usesEC : Bool) (mappings : Int → Option Int)
    (up acting : List Int) : List Int :=
  if usesEC then up else reorderGo mappings acting 0 up

/-- One iteration of the `accountForRemap` loop over the up indices: when
`up[i]` equals the remap source, remove the PG's reservations, substitute
the target, re-run `reorderUpToMatchActing` (with `useUpmap = false`), and
re-add reservations. The PG brief is threaded together with the backfill
state because the Go `pgb` is a pointer stored in `bs.pgbs`. -/
def accountForRemapStep (pools : String → Option Bool) (pgid : String)
    (f t : Int) (st : backfillState × pgBriefItem) (i : Nat) :
    Option (backfillState × pgBriefItem) :=
  let (bs, pgb) := st
  match pgb.Up.get? i with
  | none => some st
  | some osd =>
    if osd = f then do
      let bs1 ← removeReservations bs pgb
      let usesEC ← pools pgid
      let up2 := reorderUpToMatchActing usesEC (fun _ => none)
        (pgb.Up.set i t) pgb.Acting
      let pgb2 := { pgb with Up := up2 }
      let bs2 ← addReservations bs1 pgb2
      pure ({ bs2 with pgbs := updPgb bs2.pgbs pgid pgb2 }, pgb2)
    else some st

/-- `bs.accountForRemap(pgid, from, to)`: panics (`none`) when the PG is
unknown, when the pool of the PG is unknown, or when a reservation counter
would underflow; otherwise processes every up slot holding the source OSD.
The Go `range` iterates the original slice length while observing in-place
mutations, which the fold over `List.range` reproduces (the up length is
invariant under `set` and reorder). -/
def accountForRemap (pools : String → Option Bool) (bs : backfillState)
    (pgid : String) (f t : Int) : Option backfillState :=
  match bs.pgbs pgid with
  | none => none
  | some pgb0 => do
    let st ← (List.range pgb0.Up.length).foldlM
      (accountForRemapStep pools pgid f t) (bs, pgb0)
    pure st.1

/-- `bs.getMaxBackfillReservations(osd)`: the per-OSD override when set
(not `-1`), else the global default. A missing map entry carries the
default `-1`, so the total-function model agrees with the Go map. -/
def getMaxBackfillReservations (bs : backfillState) (o : Int) : Int :=
  if (bs.osds o).maxBackfillReservations ≠ -1 then
    (bs.osds o).maxBackfillReservations
  else bs.maxBackfillReservations

/-- `bs.hasRoomForRemap(pgid, from, to)`: reject if the source is already at
`maxBackfillsFrom`; otherwise apply the edit, check the primary's local
reservations and every backfill target's remote reservations against their
maxima, revert the edit with the inverse `accountForRemap`, and return the
verdict. Returns the verdict together with the resulting backfill state
(`none` models a panic inside `accountForRemap`/`primaryOsd`). -/
def hasRoomForRemap (pools : String → Option Bool) (bs : backfillState)
    (pgid : String) (f t : Int) : Option (Bool × backfillState) :=
  if (bs.osds f).backfillsFrom ≥ bs.maxBackfillsFrom then some (false, bs)
  else do
    let bs1 ← accountForRemap pools bs pgid f t
    let pgb ← bs1.pgbs pgid
    let p ← primaryOsd pgb
    let hasRoom1 :=
      if (bs1.osds p).localReservations > getMaxBackfillReservations bs1 p
      then false else true
    let tgts := (computeBackfillSrcsTgts pgb).2
    let hasRoom2 := tgts.foldl
      (fun h o =>
        if (bs1.osds o).remoteReservations > getMaxBackfillReservations bs1 o
        then false else h)
      hasRoom1
    let bs2 ← accountForRemap pools bs1 pgid t f
    pure (hasRoom2, bs2)

/-- `changeStateType`: `NoChange < NoReservationAvailable < ChangesPending`. -/
inductive changeStateType where
  | NoChange
  | NoReservationAvailable
  | ChangesPending
deriving DecidableEq

/-- The mapping state: the (sorted) upmap item list, the backfill state,
and the global change-state. The mutex serializes access in Go and has no
value-level content. -/
structure mappingState where
  pgUpmapItems : List pgUpmapItem
  bs : backfillState
  changeState : changeStateType

/-- A fresh, empty upmap item for `pgid`. -/
def newUpmapItem (pgid : String) : pgUpmapItem :=
  { PgID := pgid, Mappings := [], removedMappings := [], staleMappings := [],
    dirty := false }

/-- `findOrMakeUpmapItem`: locate the item for `pgid`, inserting a fresh one
at its sorted position when absent. The Go code uses `sort.Search` — binary
search for the least index with `PgID >= pgid` — which on the sorted lists
the mapping state maintains coincides with the linear least-index search
used here. Returns the index of the item and the (possibly extended) list. -/
def findOrMakeUpmapItem (items : List pgUpmapItem) (pgid : String) :
    Nat × List pgUpmapItem :=
  let i := items.findIdx (fun p => !(decide (p.PgID < pgid)))
  match items.get? i with
  | some p =>
    if p.PgID = pgid then (i, items)
    else (i, items.take i ++ [newUpmapItem pgid] ++ items.drop i)
  | none => (i, items.take i ++ [newUpmapItem pgid] ++ items.drop i)

/-- The outcome of the `tryRemap` scan over the existing mappings of the
item: an exact inverse (remove it), a chain `X → from` (retarget it), a
conflict, or no interaction at all (append a fresh mapping). The rebuilt
mapping list and the entry pushed onto `removedMappings` are returned for
the two resolvable cases. -/
inductive scanOutcome where
  | inverse (newMappings : List mapping) (removed : mapping)
  | chain (newMappings : List mapping) (removed : mapping)
  | conflict
  | fresh
deriving DecidableEq

/-- The scan loop of `tryRemap`: Go iterates with an index `i` and splices
the slice; here the already-scanned part is carried in `acc` (in order), so
`append(ms[0:i], ms[i+1:]...)` becomes `acc ++ rest`. The three tests are
checked per mapping in source order: exact inverse, chain (`mp.To == from`),
then conflict (`mp.From == to || mp.From == from || mp.To == to`). -/
def scanMappings (f t : Int) (acc : List mapping) :
    List mapping → scanOutcome
  | [] => .fresh
  | m :: rest =>
    if m.From = t ∧ m.To = f then
      .inverse (acc ++ rest) { m with dirty := true }
    else if m.To = f then
      .chain (acc ++ [{ m with To := t, dirty := true }] ++ rest)
        { m with dirty := true }
    else if m.From = t ∨ m.From = f ∨ m.To = t then
      .conflict
    else
      scanMappings f t (acc ++ [m]) rest

/-- The result of `tryRemap`: success, a conflict error (the caller skips
the PG), or a panic inside the accounting (modelled explicitly). The
mutated state is carried in the first two cases. -/
inductive remapResult where
  | ok (s : mappingState)
  | conflict (s : mappingState)
  | panicked

/-- The common tail of the three mutating branches of `tryRemap`: install
the rewritten item and run `bs.accountForRemap(pgid, from, to)`. -/
def applyAccount (pools : String → Option Bool) (s : mappingState)
    (items : List pgUpmapItem) (i : Nat) (pui2 : pgUpmapItem)
    (pgid : String) (f t : Int) : remapResult :=
  match accountForRemap pools s.bs pgid f t with
  | none => .panicked
  | some bs2 =>
    .ok { pgUpmapItems := items.set i pui2, bs := bs2,
          changeState := .ChangesPending }

/-- `m.tryRemap(pgid, from, to)`: find or make the item; an exact duplicate
is a silent no-op; otherwise mark the item dirty, advance the change-state
to `ChangesPending`, and scan the existing mappings — removing an exact
inverse, retargeting a chain, failing on a conflict, or appending a fresh
mapping — updating the backfill accounting on every mutating branch. -/
def tryRemap (pools : String → Option Bool) (s : mappingState)
    (pgid : String) (f t : Int) : remapResult :=
  let fm := findOrMakeUpmapItem s.pgUpmapItems pgid
  let i := fm.1
  let items := fm.2
  let pui := items.getD i (newUpmapItem pgid)
  if pui.Mappings.any (fun m => m.From == f && m.To == t) then
    .ok { s with pgUpmapItems := items }
  else
    match scanMappings f t [] pui.Mappings with
    | .conflict =>
      .conflict { s with
        pgUpmapItems := items.set i { pui with dirty := true },
        changeState := .ChangesPending }
    | .inverse newMaps rem =>
      applyAccount pools s items i
        { pui with
          dirty := true,
          Mappings := newMaps,
          removedMappings := pui.removedMappings ++ [rem] } pgid f t
    | .chain newMaps rem =>
      applyAccount pools s items i
        { pui with
          dirty := true,
          Mappings := newMaps,
          removedMappings := pui.removedMappings ++ [rem] } pgid f t
    | .fresh =>
      applyAccount pools s items i
        { pui with
          dirty := true,
          Mappings := pui.Mappings ++ [{ From := f, To := t, dirty := true }] }
        pgid f t

/-- Look up the upmap item recorded for a PG id. -/
def findItem (items : List pgUpmapItem) (pgid : String) : Option pgUpmapItem :=
  items.find? (fun p => p.PgID == pgid)

/-- The mapping list recorded for a PG (`none` when the PG has no item). -/
def lookupMappings (items : List pgUpmapItem) (pgid : String) :
    Option (List mapping) :=
  (findItem items pgid).map pgUpmapItem.Mappings

/-- The constructor's `sort.Slice(items, PgID <)` in
`mustGetCurrentMappingState`: an (unstable) sort by PG id, modelled
extensionally by merge sort on `PgID ≤`. -/
def sortUpmapItems (items : List pgUpmapItem) : List pgUpmapItem :=
  items.mergeSort (fun a b => decide (a.PgID ≤ b.PgID))

/-- The `excluded` closure of `calcPgMappingsToUndoBackfill`: membership in
the `--exclude-osds` set. -/
def slotExcluded (excludedOsds : List Int) (o : Int) : Bool :=
  excludedOsds.contains o

/-- The `included` closure: true when `--include-osds` is empty or contains
the OSD. -/
def slotIncluded (includedOsds : List Int) (o : Int) : Bool :=
  includedOsds.isEmpty || includedOsds.contains o

/-- The per-slot loop of `calcPgMappingsToUndoBackfill` (the `for i := range
acting` loop), over the zipped `(up[i], acting[i])` pairs (the function has
already checked `len(up) == len(acting)`). Returns, in slot order, the
`(from, to) = (up[i], acting[i])` pairs passed to `tryRemap`. -/
def undoBackfillSlots (source target : Bool) (ex inc : List Int) :
    List (Int × Int) → List (Int × Int)
  | [] => []
  | p :: rest =>
    let tail := undoBackfillSlots source target ex inc rest
    if p.1 ≠ p.2 then
      if p.1 = invalidOSD ∨ p.2 = invalidOSD then tail
      else if target = source then
        if slotExcluded ex p.1 || slotExcluded ex p.2 then tail
        else if !(slotIncluded inc p.1 || slotIncluded inc p.2) then tail
        else (p.1, p.2) :: tail
      else
        if (source && slotExcluded ex p.1) || (target && slotExcluded ex p.2) then tail
        else if !((source && slotIncluded inc p.1) || (target && slotIncluded inc p.2)) then tail
        else (p.1, p.2) :: tail
    else tail

/-- The slot filter applied to a PG's up/acting vectors: which remaps
cancel-backfill attempts for this PG. -/
def undoBackfillSlotRemaps (source target : Bool) (ex inc : List Int)
    (up acting : List Int) : List (Int × Int) :=
  undoBackfillSlots source target ex inc (List.zip up acting)

/-- The inner loop of `getUpPGsForOsds` for one PG: append the PG to the
map entry of the first up member that is a key of the map, then break. -/
def addPgToFirstKey (m : Int → Option (List pgBriefItem)) (pg : pgBriefItem) :
    List Int → (Int → Option (List pgBriefItem))
  | [] => m
  | o :: rest =>
    match m o with
    | some l => fun x => if x = o then some (l ++ [pg]) else m x
    | none => addPgToFirstKey m pg rest

/-- `getUpPGsForOsds(osds)`: initialize one (empty) entry per requested OSD,
then distribute each PG brief to the entry of the first of its up members
present in the map (`break` after the first hit). The Go map is read only
through its keys (fixed up front), so it is modelled as a function that is
`none` off the requested OSDs. -/
def getUpPGsForOsds (osds : List Int) (pgBriefs : List pgBriefItem) :
    Int → Option (List pgBriefItem) :=
  let init : Int → Option (List pgBriefItem) :=
    fun o => if osds.contains o then some [] else none
  pgBriefs.foldl (fun m pg => addPgToFirstKey m pg pg.Up) init

/-- A CRUSH tree node. `Typ` is the Go field `Type` (a Lean keyword). The
Go `Parent` pointer is modelled by the parent's id: `IDToNode` holds one
node per id, so pointer equality coincides with id equality. -/
structure osdTreeNode where
  ID : Int
  Typ : String
  parent : Option Int
deriving DecidableEq

/-- The parent walk of `getNearestParentOfType`, with fuel: the Go loop
follows `Parent` pointers until it finds the requested type or the root.
Parsed trees are acyclic, so any fuel at least the tree depth computes the
exact result; the theorems only constrain runs that return `some`. -/
def walkParentOfType (idToNode : Int → Option osdTreeNode) (t : String) :
    Nat → Option osdTreeNode → Option osdTreeNode
  | 0, _ => none
  | _, none => none
  | fuel + 1, some n =>
    if n.Typ = t then some n
    else walkParentOfType idToNode t fuel (n.parent.bind idToNode)

/-- `otn.getNearestParentOfType(t)`: the closest strict ancestor of the
requested type. `mustGetNearestParentOfType` panics when the result is
nil, which the theorems model by requiring `some`. -/
def getNearestParentOfType (idToNode : Int → Option osdTreeNode) (fuel : Nat)
    (n : osdTreeNode) (t : String) : Option osdTreeNode :=
  walkParentOfType idToNode t fuel (n.parent.bind idToNode)

/-- The loop of `isCandidateMapping` over the PG's up members: skip the
source OSD; reject when a member's nearest bucket of the given type is the
target's (`none` models the nil-dereference / `must...` panic for a member
without a node or without such an ancestor). -/
def upMembersCheck (idToNode : Int → Option osdTreeNode) (fuel : Nat)
    (t : String) (sourceOsd : Int) (ptID : Int) : List Int → Option Bool
  | [] => some true
  | u :: rest =>
    if u = sourceOsd then upMembersCheck idToNode fuel t sourceOsd ptID rest
    else
      match idToNode u with
      | none => none
      | some uNode =>
        match getNearestParentOfType idToNode fuel uNode t with
        | none => none
        | some pu =>
          if pu.ID = ptID then some false
          else upMembersCheck idToNode fuel t sourceOsd ptID rest

/-- `isCandidateMapping(allowMovementAcrossCrushType, sourceOsd, targetOsd,
pg)`: a self-move is never a candidate; with the empty locality type the
target must share the source's immediate CRUSH parent; with a named type
the nearest buckets of that type over source and target must share their
parent, and no other up member of the PG may live under the target's
bucket. `none` models the Go panics (missing node, missing ancestor). -/
def isCandidateMapping (idToNode : Int → Option osdTreeNode) (fuel : Nat)
    (allowMovementAcrossCrushType : String) (sourceOsd targetOsd : Int)
    (pg : pgBriefItem) : Option Bool :=
  if targetOsd = sourceOsd then some false
  else
    match idToNode sourceOsd, idToNode targetOsd with
    | some sNode, some tNode =>
      if allowMovementAcrossCrushType = "" then
        some (decide (tNode.parent = sNode.parent))
      else
        match getNearestParentOfType idToNode fuel sNode
            allowMovementAcrossCrushType,
          getNearestParentOfType idToNode fuel tNode
            allowMovementAcrossCrushType with
        | some ps, some pt =>
          if ps.parent ≠ pt.parent then some false
          else upMembersCheck idToNode fuel allowMovementAcrossCrushType
            sourceOsd pt.ID pg.Up
        | _, _ => none
    | _, _ => none

/-- One parsed `peer_info` entry of a PG query. The peer identifier string
`"osd"` or `"osd(index)"` is modelled already split by the anchored regex:
`index = none` for the replicated form. -/
structure peerInfo where
  osd : Int
  index : Option Nat
  incomplete : Int
  lastEpochClean : Int
deriving DecidableEq

/-- A parsed PG query: the acting set and the peer list. -/
structure pgQueryOut where
  Acting : List Int
  peerInfo : List peerInfo
deriving DecidableEq

/-- The peer loop of `getCompletePeers` (`part_002`), threading the
`osdEpochMap` (a Go map read with zero-value default `0`) and the peers
vector. EC entries record their `last_epoch_clean` first and then compete
for their index slot — the source has no `incomplete` check on this branch;
replicated entries are skipped when incomplete and otherwise fill the first
`invalidOSD` slot. `none` models the Go panics (index out of range, too
many complete replicas). -/
def getCompletePeersGo (epochMap : Int → Int) (peers : List Int) :
    List peerInfo → Option (List Int)
  | [] => some peers
  | pi :: rest =>
    match pi.index with
    | some idx =>
      let em := fun x => if x = pi.osd then pi.lastEpochClean else epochMap x
      match peers.get? idx with
      | none => none
      | some cur =>
        if cur = pi.osd then getCompletePeersGo em peers rest
        else if cur ≠ invalidOSD ∧ em cur > pi.lastEpochClean then
          getCompletePeersGo em peers rest
        else getCompletePeersGo em (peers.set idx pi.osd) rest
    | none =>
      if pi.incomplete = 1 then getCompletePeersGo epochMap peers rest
      else if peers.contains pi.osd then getCompletePeersGo epochMap peers rest
      else
        match peers.findIdx? (fun p => p == invalidOSD) with
        | none => none
        | some j => getCompletePeersGo epochMap (peers.set j pi.osd) rest

/-- `pqo.getCompletePeers()`: start from the acting set and fill or replace
slots from the peer list. -/
def getCompletePeers (pqo : pgQueryOut) : Option (List Int) :=
  getCompletePeersGo (fun _ => 0) pqo.Acting pqo.peerInfo

/-- Sortedness of the upmap item list: strictly increasing PG ids (the
constructor sorts, and ids are unique per PG). -/
def itemsSorted (items : List pgUpmapItem) : Prop :=
  items.Pairwise (fun a b => a.PgID < b.PgID)

/-- A mapping of the item interacts with the edit `(f, t)` when it overlaps
on either endpoint: its source or target equals `f` or `t`. -/
def interactsWith (f t : Int) (m : mapping) : Bool :=
  m.From == t || m.From == f || m.To == t || m.To == f

/-- The first up member of a PG that belongs to the requested OSD set (the
`break` target of the `getUpPGsForOsds` inner loop). -/
def upHit (osds : List Int) (pg : pgBriefItem) : Option Int :=
  pg.Up.find? (fun u => osds.contains u)

/-- A PG whose up set holds two distinct OSDs of the balanced bucket. -/
def c7pg : pgBriefItem :=
  { PgID := "1.1", State := "", Up := [1, 2], Acting := [1, 2] }

/-- A degraded PG: slot 0 has `acting[0] = NONE` while `up[0] = 5`. -/
def c3pgb : pgBriefItem :=
  { PgID := "1.0", State := "", Up := [5, 1], Acting := [invalidOSD, 1] }

/-- A zeroed backfill state with no PGs registered. -/
def c3bs0 : backfillState :=
  { osds := fun _ => defaultOsdBackfillState, pgbs := fun _ => none,
    maxBackfillsFrom := 100, maxBackfillReservations := 100 }

/-- A degraded EC PG query: slot 1 is missing; the peer list holds a
complete peer `8(1)` with `last_epoch_clean = 150` and an incomplete peer
`7(1)` with `last_epoch_clean = 200`. -/
def c5query : pgQueryOut :=
  { Acting := [10, invalidOSD],
    peerInfo :=
      [{ osd := 8, index := some 1, incomplete := 0, lastEpochClean := 150 },
       { osd := 7, index := some 1, incomplete := 1, lastEpochClean := 200 }] }

/-- The index of the item `tryRemap` operates on (its `findOrMakeUpmapItem`
call). -/
def fmIdx (s : mappingState) (pgid : String) : Nat :=
  (findOrMakeUpmapItem s.pgUpmapItems pgid).1

/-- The item list after `tryRemap`'s `findOrMakeUpmapItem` call. -/
def fmItems (s : mappingState) (pgid : String) : List pgUpmapItem :=
  (findOrMakeUpmapItem s.pgUpmapItems pgid).2

/-- The item `tryRemap` operates on. -/
def fmPui (s : mappingState) (pgid : String) : pgUpmapItem :=
  (fmItems s pgid).getD (fmIdx s pgid) (newUpmapItem pgid)

/-- A pool table marking every PG replicated. -/
def cpools : String → Option Bool := fun _ => some false

/-- Mappings `1→0` and `2→5`: a chain for the edit `(0, 5)` followed by a
mapping that also targets `5`. -/
def c1mappings : List mapping :=
  [{ From := 1, To := 0, dirty := false }, { From := 2, To := 5, dirty := false }]

/-- A backfill state holding one quiet PG `1.0` (`up = acting = [9]`), so
`accountForRemap` finds the PG but no slot to rewrite. -/
def c1bs : backfillState :=
  { osds := fun _ => defaultOsdBackfillState,
    pgbs := fun q =>
      if q = "1.0" then
        some { PgID := "1.0", State := "", Up := [9], Acting := [9] }
      else none,
    maxBackfillsFrom := 100, maxBackfillReservations := 100 }

/-- A mapping state whose PG `1.0` carries `c1mappings`. -/
def c1state : mappingState :=
  { pgUpmapItems := [{
      PgID := "1.0",
      Mappings := c1mappings,
      removedMappings := [],
      staleMappings := [],
      dirty := false }],
    bs := c1bs,
    changeState := .NoChange }

/-- A mapping state whose PG `1.0` carries only the conflicting `2→5`. -/
def c1wstate : mappingState :=
  { pgUpmapItems := [{
      PgID := "1.0",
      Mappings := [{ From := 2, To := 5, dirty := false }],
      removedMappings := [],
      staleMappings := [],
      dirty := false }],
    bs := c1bs,
    changeState := .NoChange }

/-- A one-item sorted upmap list. -/
def c10items : List pgUpmapItem :=
  [{ PgID := "1.1", Mappings := [], removedMappings := [], staleMappings := [],
     dirty := false }]

/-- A small CRUSH tree for exercising the locality check: OSDs 1 and 2
under host −1, OSD 8 under host −3, both hosts under rack −2. -/
def c8tree : Int → Option osdTreeNode := fun i =>
  if i = 1 then some { ID := 1, Typ := "osd", parent := some (-1) }
  else if i = 2 then some { ID := 2, Typ := "osd", parent := some (-1) }
  else if i = 8 then some { ID := 8, Typ := "osd", parent := some (-3) }
  else if i = -1 then some { ID := -1, Typ := "host", parent := some (-2) }
  else if i = -3 then some { ID := -3, Typ := "host", parent := some (-2) }
  else if i = -2 then some { ID := -2, Typ := "rack", parent := none }
  else none

/-- A PG whose only up member is the drain source. -/
def c8pg : pgBriefItem := { PgID := "1.2", State := "", Up := [1], Acting := [1] }

/-- A backfill state for the do/undo experiments: PG `1.0` idle
(`up = acting = [7]`), all counters zero, generous budgets. -/
def c2bs : backfillState :=
  { osds := fun _ => defaultOsdBackfillState,
    pgbs := fun q =>
      if q = "1.0" then
        some { PgID := "1.0", State := "", Up := [7], Acting := [7] }
      else none,
    maxBackfillsFrom := 100,
    maxBackfillReservations := 100 }

/-- A state whose PG `1.0` already records the mapping `1→2`. -/
def c2state : mappingState :=
  { pgUpmapItems := [{
      PgID := "1.0",
      Mappings := [{ From := 1, To := 2, dirty := false }],
      removedMappings := [],
      staleMappings := [],
      dirty := false }],
    bs := c2bs,
    changeState := .NoChange }

/-- The state after the do/undo pair on `c2state`: the pre-existing mapping
`1→2` has been removed. -/
def c2final : mappingState :=
  { pgUpmapItems := [{
      PgID := "1.0",
      Mappings := [],
      removedMappings := [{ From := 1, To := 2, dirty := true }],
      staleMappings := [],
      dirty := true }],
    bs := c2bs,
    changeState := .ChangesPending }

/-- A state whose PG `1.0` has an item with no mappings. -/
def c2wstate : mappingState :=
  { pgUpmapItems := [{
      PgID := "1.0",
      Mappings := [],
      removedMappings := [],
      staleMappings := [],
      dirty := false }],
    bs := c2bs,
    changeState := .NoChange }

/-- `c2wstate` after `tryRemap("1.0", 1, 2)`: a fresh mapping appended. -/
def c2s1 : mappingState :=
  { pgUpmapItems := [{
      PgID := "1.0",
      Mappings := [{ From := 1, To := 2, dirty := true }],
      removedMappings := [],
      staleMappings := [],
      dirty := true }],
    bs := c2bs,
    changeState := .ChangesPending }

/-- `c2s1` after the inverse `tryRemap("1.0", 2, 1)`: the fresh mapping has
been removed again, leaving its trace in `removedMappings`. -/
def c2s2 : mappingState :=
  { pgUpmapItems := [{
      PgID := "1.0",
      Mappings := [],
      removedMappings := [{ From := 1, To := 2, dirty := true }],
      staleMappings := [],
      dirty := true }],
    bs := c2bs,
    changeState := .ChangesPending }

/-- A backfill state with PG `1.0` mid-backfill (`up = [3, 1]`,
`acting = [1, 2]`) and the matching reservation counters. -/
def c4bs : backfillState :=
  { osds := fun o =>
      if o = 1 then { localReservations := 1, remoteReservations := 1, maxBackfillReservations := -1, backfillsFrom := 1 }
      else if o = 2 then { localReservations := 0, remoteReservations := 0, maxBackfillReservations := -1, backfillsFrom := 1 }
      else if o = 3 then { localReservations := 0, remoteReservations := 1, maxBackfillReservations := -1, backfillsFrom := 0 }
      else defaultOsdBackfillState,
    pgbs := fun q =>
      if q = "1.0" then
        some { PgID := "1.0", State := "", Up := [3, 1], Acting := [1, 2] }
      else none,
    maxBackfillsFrom := 100,
    maxBackfillReservations := 100 }

section Theorems

/-- Membership-respecting rewriting of `List.find?`. -/
theorem find?_congr {α : Type} (p q : α → Bool) (h : ∀ a, p a = q a) :
    ∀ l : List α, l.find? p = l.find? q := by
  intro l
  induction l with
  | nil => rfl
  | cons a rest ih =>
    simp only [List.find?_cons, h a, ih]

/-- The cancel-backfill slot filter with `--source` alone keeps exactly the
non-degraded backfill slots whose `up[i]` passes the include/exclude
filters. -/
theorem undoBackfillSlots_sourceOnly (ex inc : List Int) :
    ∀ l : List (Int × Int),
      undoBackfillSlots true false ex inc l =
        l.filter (fun p => decide (p.1 ≠ p.2) && decide (p.1 ≠ invalidOSD) &&
          decide (p.2 ≠ invalidOSD) && !(slotExcluded ex p.1) &&
          slotIncluded inc p.1) := by
  intro l
  induction l with
  | nil => rfl
  | cons p rest ih =>
    simp only [undoBackfillSlots, List.filter_cons, ih]
    by_cases h1 : p.1 = p.2 <;>
      by_cases h2 : p.1 = invalidOSD <;>
        by_cases h3 : p.2 = invalidOSD <;>
          by_cases h4 : slotExcluded ex p.1 <;>
            by_cases h5 : slotIncluded inc p.1 <;>
              simp_all [slotExcluded, slotIncluded] <;> tauto

/-- The cancel-backfill slot filter with `--target` alone keeps exactly the
non-degraded backfill slots whose `acting[i]` passes the filters. -/
theorem undoBackfillSlots_targetOnly (ex inc : List Int) :
    ∀ l : List (Int × Int),
      undoBackfillSlots false true ex inc l =
        l.filter (fun p => decide (p.1 ≠ p.2) && decide (p.1 ≠ invalidOSD) &&
          decide (p.2 ≠ invalidOSD) && !(slotExcluded ex p.2) &&
          slotIncluded inc p.2) := by
  intro l
  induction l with
  | nil => rfl
  | cons p rest ih =>
    simp only [undoBackfillSlots, List.filter_cons, ih]
    by_cases h1 : p.1 = p.2 <;>
      by_cases h2 : p.1 = invalidOSD <;>
        by_cases h3 : p.2 = invalidOSD <;>
          by_cases h4 : slotExcluded ex p.2 <;>
            by_cases h5 : slotIncluded inc p.2 <;>
              simp_all [slotExcluded, slotIncluded] <;> tauto

/-- C6: the claim is false as stated — with `--source` alone the filter is
applied to `up[i]` (the remap's from side), not to `acting[i]`. Concretely,
for a slot with `up[0] = 20`, `acting[0] = 21` and `--exclude-osds 21`
(`21` being the backfill source of that slot), `--source` still cancels the
slot even though `acting[0] = 21` is excluded. -/
theorem c6_counterexample :
    undoBackfillSlotRemaps true false [21] [] [20] [21] = [(20, 21)] ∧
      slotExcluded [21] 21 = true := by
  constructor <;> rfl

/-- C6 (amended): when exactly one of `--source` / `--target` is set, the
include/exclude filters are narrowed to the **up** side for `--source` and
to the **acting** side for `--target` (the opposite of the claim): with
`--source` alone a backfill slot `i` is cancelled iff `up[i] ≠ acting[i]`,
both are non-`NONE`, and `up[i]` passes the filters; with `--target` alone,
iff `acting[i]` passes them. -/
theorem c6_side_filters (ex inc : List Int) (up acting : List Int) :
    (undoBackfillSlotRemaps true false ex inc up acting =
      (List.zip up acting).filter (fun p =>
        decide (p.1 ≠ p.2 ∧ p.1 ≠ invalidOSD ∧ p.2 ≠ invalidOSD ∧
          p.1 ∉ ex ∧ (inc = [] ∨ p.1 ∈ inc)))) ∧
    (undoBackfillSlotRemaps false true ex inc up acting =
      (List.zip up acting).filter (fun p =>
        decide (p.1 ≠ p.2 ∧ p.1 ≠ invalidOSD ∧ p.2 ≠ invalidOSD ∧
          p.2 ∉ ex ∧ (inc = [] ∨ p.2 ∈ inc)))) := by
  constructor
  · rw [undoBackfillSlotRemaps, undoBackfillSlots_sourceOnly]
    apply List.filter_congr
    intro p _
    by_cases h1 : p.1 = p.2 <;> by_cases h2 : p.1 = invalidOSD <;>
      by_cases h3 : p.2 = invalidOSD <;> by_cases h4 : p.1 ∈ ex <;>
        by_cases h5 : inc = [] <;>
          simp_all [slotExcluded, slotIncluded, List.isEmpty_iff]
  · rw [undoBackfillSlotRemaps, undoBackfillSlots_targetOnly]
    apply List.filter_congr
    intro p _
    by_cases h1 : p.1 = p.2 <;> by_cases h2 : p.1 = invalidOSD <;>
      by_cases h3 : p.2 = invalidOSD <;> by_cases h4 : p.2 ∈ ex <;>
        by_cases h5 : inc = [] <;>
          simp_all [slotExcluded, slotIncluded, List.isEmpty_iff]

/-- The inner loop of `getUpPGsForOsds` appends the PG to the first up
member that is a key of the map and leaves every other entry alone. -/
theorem addPgToFirstKey_eq (m : Int → Option (List pgBriefItem))
    (pg : pgBriefItem) :
    ∀ (l : List Int) (o : Int),
      addPgToFirstKey m pg l o =
        match l.find? (fun u => (m u).isSome) with
        | some u => if o = u then (m o).map (fun x => x ++ [pg]) else m o
        | none => m o := by
  intro l
  induction l with
  | nil => intro o; rfl
  | cons a rest ih =>
    intro o
    simp only [addPgToFirstKey, List.find?_cons]
    cases hma : m a with
    | some l0 =>
      simp only [hma, Option.isSome_some, cond_true]
      by_cases ho : o = a
      · subst ho; simp [hma]
      · simp [ho]
    | none =>
      simp only [hma, Option.isSome_none, cond_false]
      exact ih o

/-- The fold of `getUpPGsForOsds` distributes each PG to the entry of the
first of its up members present in the map, provided the map's domain is
exactly the requested OSD set (which the fold preserves). -/
theorem getUpPGs_fold (osds : List Int) :
    ∀ (pgs : List pgBriefItem) (m : Int → Option (List pgBriefItem)),
      (∀ o, (m o).isSome = osds.contains o) →
      ∀ o, (pgs.foldl (fun m pg => addPgToFirstKey m pg pg.Up) m) o =
        (m o).map (fun x => x ++ pgs.filter (fun pg => upHit osds pg == some o)) := by
  intro pgs
  induction pgs with
  | nil =>
    intro m _ o
    simp only [List.foldl_nil, List.filter_nil]
    cases m o <;> simp
  | cons pg rest ih =>
    intro m hdom o
    have hfind : pg.Up.find? (fun u => (m u).isSome) =
        pg.Up.find? (fun u => osds.contains u) := by
      exact find?_congr _ _ (fun a => hdom a) pg.Up
    have hstep : ∀ x, addPgToFirstKey m pg pg.Up x =
        match upHit osds pg with
        | some u => if x = u then (m x).map (fun l => l ++ [pg]) else m x
        | none => m x := by
      intro x
      rw [addPgToFirstKey_eq, hfind]; rfl
    have hdom' : ∀ x, (addPgToFirstKey m pg pg.Up x).isSome = osds.contains x := by
      intro x
      rw [hstep x]
      cases hu : upHit osds pg with
      | none => exact hdom x
      | some u =>
        have hu2 : pg.Up.find? (fun u => osds.contains u) = some u := hu
        have hu3 : osds.contains u = true := by
          have := List.find?_some hu2
          simpa using this
        by_cases hx : x = u
        · subst hx
          have hms : (m x).isSome = true := by rw [hdom x]; exact hu3
          obtain ⟨l0, hl0⟩ := Option.isSome_iff_exists.mp hms
          simp only [if_pos rfl, hl0, Option.map_some', Option.isSome_some]
          exact hu3.symm
        · simp only [if_neg hx]; exact hdom x
    have hrest := ih (addPgToFirstKey m pg pg.Up) hdom' o
    simp only [List.foldl_cons] at hrest ⊢
    rw [hrest, hstep o]
    cases hu : upHit osds pg with
    | none => simp [List.filter_cons, hu]
    | some u =>
      by_cases ho : o = u
      · subst ho
        cases hmo : m o <;> simp [List.filter_cons, hu, hmo]
      · have hne : u ≠ o := fun h => ho h.symm
        simp [List.filter_cons, hu, ho, hne]

/-- C7: the claim is false as stated — a PG whose up set holds two distinct
OSDs of the bucket is counted only for the **first** of them in up order:
with bucket OSDs `{1, 2}` and one PG with `up = [1, 2]`, OSD `1` gets the
PG and OSD `2` gets none, while the claim requires one for each. -/
theorem c7_counterexample :
    getUpPGsForOsds [1, 2] [c7pg] 1 = some [c7pg] ∧
      getUpPGsForOsds [1, 2] [c7pg] 2 = some [] ∧
      (1 : Int) ∈ c7pg.Up ∧ (2 : Int) ∈ c7pg.Up := by
  refine ⟨rfl, rfl, ?_, ?_⟩ <;> decide

/-- C7 (amended): `balance-bucket`'s `count(osd)` counts the PGs whose
*first* up member belonging to the bucket is this OSD; a PG contributes to
exactly one OSD of the bucket (the earliest in its up vector), not to every
bucket OSD its up set contains. -/
theorem c7_up_pg_counts (osds : List Int) (pgs : List pgBriefItem) (o : Int)
    (ho : osds.contains o = true) :
    getUpPGsForOsds osds pgs o =
      some (pgs.filter (fun pg => pg.Up.find? (fun u => osds.contains u) == some o)) := by
  have hdom : ∀ x, ((fun o => if osds.contains o then some ([] : List pgBriefItem) else none) x).isSome
      = osds.contains x := by
    intro x
    by_cases hx : x ∈ osds <;> simp [hx]
  have hfold := getUpPGs_fold osds pgs
    (fun o => if osds.contains o then some [] else none) hdom o
  rw [getUpPGsForOsds, hfold]
  simp only [ho, if_true, Option.map_some', List.nil_append]
  rfl

/-- C7 witness: the amended count at a concrete input. -/
theorem c7_up_pg_counts_witness :
    ([1, 2] : List Int).contains 1 = true ∧
      getUpPGsForOsds [1, 2] [c7pg] 1 = some [c7pg] := by
  refine ⟨by decide, (c7_up_pg_counts [1, 2] [c7pg] 1 (by decide)).trans ?_⟩
  rfl

/-- C5: the EC branch of `getCompletePeers` never consults the `incomplete`
flag, so for the missing slot 1 the incomplete peer `7(1)`
(`last_epoch_clean = 200`) wins over the complete peer `8(1)`
(`last_epoch_clean = 150`): the code returns `[10, 7]` where the claim (and
the function's own doc comment) require the complete peer `8`. -/
theorem c5_incomplete_peer_chosen :
    getCompletePeers c5query = some [10, 7] ∧
      (∃ p ∈ c5query.peerInfo, p.index = some 1 ∧ p.incomplete = 0 ∧ p.osd = 8) ∧
      (∃ p ∈ c5query.peerInfo, p.index = some 1 ∧ p.incomplete = 1 ∧ p.osd = 7) := by
  refine ⟨rfl, ?_, ?_⟩ <;> decide

/-- Folding `backfillsFrom` increments over a source list raises each OSD's
`backfillsFrom` by its multiplicity and leaves the other fields alone. -/
theorem foldl_bumpBackfillsFrom (l : List Int) :
    ∀ (f : Int → osdBackfillState) (o : Int),
      ((l.foldl bumpBackfillsFrom f) o).backfillsFrom
          = (f o).backfillsFrom + (l.count o : ℤ) ∧
        ((l.foldl bumpBackfillsFrom f) o).remoteReservations
          = (f o).remoteReservations ∧
        ((l.foldl bumpBackfillsFrom f) o).localReservations
          = (f o).localReservations ∧
        ((l.foldl bumpBackfillsFrom f) o).maxBackfillReservations
          = (f o).maxBackfillReservations := by
  induction l with
  | nil => intro f o; simp
  | cons a l ih =>
    intro f o
    obtain ⟨h1, h2, h3, h4⟩ := ih (bumpBackfillsFrom f a) o
    simp only [List.foldl_cons]
    refine ⟨?_, ?_, ?_, ?_⟩
    · rw [h1]
      by_cases hao : o = a
      · subst hao
        simp [bumpBackfillsFrom, updOsd, List.count_cons]
        push_cast
        ring
      · have hoa : ¬ a = o := fun h => hao h.symm
        simp [bumpBackfillsFrom, updOsd, hao, List.count_cons, hoa]
    · rw [h2]; by_cases hao : o = a <;> simp [bumpBackfillsFrom, updOsd, hao]
    · rw [h3]; by_cases hao : o = a <;> simp [bumpBackfillsFrom, updOsd, hao]
    · rw [h4]; by_cases hao : o = a <;> simp [bumpBackfillsFrom, updOsd, hao]

/-- Folding `remoteReservations` increments over a target list. -/
theorem foldl_bumpRemote (l : List Int) :
    ∀ (f : Int → osdBackfillState) (o : Int),
      ((l.foldl bumpRemote f) o).remoteReservations
          = (f o).remoteReservations + (l.count o : ℤ) ∧
        ((l.foldl bumpRemote f) o).backfillsFrom = (f o).backfillsFrom ∧
        ((l.foldl bumpRemote f) o).localReservations
          = (f o).localReservations ∧
        ((l.foldl bumpRemote f) o).maxBackfillReservations
          = (f o).maxBackfillReservations := by
  induction l with
  | nil => intro f o; simp
  | cons a l ih =>
    intro f o
    obtain ⟨h1, h2, h3, h4⟩ := ih (bumpRemote f a) o
    simp only [List.foldl_cons]
    refine ⟨?_, ?_, ?_, ?_⟩
    · rw [h1]
      by_cases hao : o = a
      · subst hao
        simp [bumpRemote, updOsd, List.count_cons]
        push_cast
        ring
      · have hoa : ¬ a = o := fun h => hao h.symm
        simp [bumpRemote, updOsd, hao, List.count_cons, hoa]
    · rw [h2]; by_cases hao : o = a <;> simp [bumpRemote, updOsd, hao]
    · rw [h3]; by_cases hao : o = a <;> simp [bumpRemote, updOsd, hao]
    · rw [h4]; by_cases hao : o = a <;> simp [bumpRemote, updOsd, hao]

/-- `bumpLocal` raises only the primary's `localReservations`. -/
theorem bumpLocal_fields (F : Int → osdBackfillState) (p x : Int) :
    (bumpLocal F p x).backfillsFrom = (F x).backfillsFrom ∧
      (bumpLocal F p x).remoteReservations = (F x).remoteReservations ∧
      (bumpLocal F p x).localReservations
        = (F x).localReservations + (if x = p then 1 else 0) := by
  by_cases hxp : x = p <;> simp [bumpLocal, updOsd, hxp]

/-- The source multiplicities produced by `computeBackfillSrcsTgts` are the
per-slot counts with no `NONE` exclusion. -/
theorem srcs_count_eq (pgb : pgBriefItem) (o : Int) :
    ((computeBackfillSrcsTgts pgb).1.count o : ℤ)
      = ((pgb.Up.zip pgb.Acting).countP
          (fun s => decide (s.1 ≠ s.2 ∧ s.2 = o)) : ℤ) := by
  simp only [computeBackfillSrcsTgts, List.count, List.countP_map,
    List.countP_filter]
  congr 1
  apply List.countP_congr
  intro s _
  simp only [Function.comp]
  constructor
  · intro h
    have h1 := of_decide_eq_true (Bool.and_elim_left h)
    have h2 := of_decide_eq_true (Bool.and_elim_right h)
    simp_all
  · intro h
    have := of_decide_eq_true h
    simp_all

/-- The target multiplicities produced by `computeBackfillSrcsTgts`. -/
theorem tgts_count_eq (pgb : pgBriefItem) (o : Int) :
    ((computeBackfillSrcsTgts pgb).2.count o : ℤ)
      = ((pgb.Up.zip pgb.Acting).countP
          (fun s => decide (s.1 ≠ s.2 ∧ s.1 = o)) : ℤ) := by
  simp only [computeBackfillSrcsTgts, List.count, List.countP_map,
    List.countP_filter]
  congr 1
  apply List.countP_congr
  intro s _
  simp only [Function.comp]
  constructor
  · intro h
    have h1 := of_decide_eq_true (Bool.and_elim_left h)
    have h2 := of_decide_eq_true (Bool.and_elim_right h)
    simp_all
  · intro h
    have := of_decide_eq_true h
    simp_all

/-- C3 (amended): `addReservations` counts **every** slot with
`up[i] ≠ acting[i]`, with no exclusion of degraded slots: each such slot
adds one to `backfillsFrom(acting[i])` and one to
`remoteReservations(up[i])` even when `acting[i]` or `up[i]` is the `NONE`
sentinel, and `localReservations(primary)` rises by one exactly when some
slot differs. -/
theorem c3_addReservations_counts (bs : backfillState) (pgb : pgBriefItem)
    (hp : (computeBackfillSrcsTgts pgb).2 ≠ [] → (primaryOsd pgb).isSome = true) :
    ∃ bs', addReservations bs pgb = some bs' ∧
      ∀ o : Int,
        (bs'.osds o).backfillsFrom = (bs.osds o).backfillsFrom +
          ((pgb.Up.zip pgb.Acting).countP
            (fun s => decide (s.1 ≠ s.2 ∧ s.2 = o)) : ℤ) ∧
        (bs'.osds o).remoteReservations = (bs.osds o).remoteReservations +
          ((pgb.Up.zip pgb.Acting).countP
            (fun s => decide (s.1 ≠ s.2 ∧ s.1 = o)) : ℤ) ∧
        (bs'.osds o).localReservations = (bs.osds o).localReservations +
          (if (computeBackfillSrcsTgts pgb).2 ≠ [] ∧ primaryOsd pgb = some o
           then 1 else 0) := by
  by_cases hte : (computeBackfillSrcsTgts pgb).2 = []
  · refine ⟨{ bs with osds := (computeBackfillSrcsTgts pgb).2.foldl bumpRemote ((computeBackfillSrcsTgts pgb).1.foldl bumpBackfillsFrom bs.osds) }, ?_, ?_⟩
    · rw [addReservations]
      simp only [hte, List.isEmpty_nil, if_true]
    · intro o
      obtain ⟨hr1, hr2, hr3, _⟩ := foldl_bumpRemote (computeBackfillSrcsTgts pgb).2
        ((computeBackfillSrcsTgts pgb).1.foldl bumpBackfillsFrom bs.osds) o
      obtain ⟨hb1, hb2, hb3, _⟩ := foldl_bumpBackfillsFrom (computeBackfillSrcsTgts pgb).1
        bs.osds o
      refine ⟨?_, ?_, ?_⟩
      · rw [hr2, hb1, srcs_count_eq]
      · rw [hr1, hb2, tgts_count_eq]
      · rw [hr3, hb3]
        simp [hte]
  · obtain ⟨p, hsome⟩ := Option.isSome_iff_exists.mp (hp hte)
    refine ⟨{ bs with osds := bumpLocal ((computeBackfillSrcsTgts pgb).2.foldl bumpRemote ((computeBackfillSrcsTgts pgb).1.foldl bumpBackfillsFrom bs.osds)) p }, ?_, ?_⟩
    · rw [addReservations]
      have : (computeBackfillSrcsTgts pgb).2.isEmpty = false := by
        cases hl : (computeBackfillSrcsTgts pgb).2 with
        | nil => exact absurd hl hte
        | cons a l => simp
      simp only [this, Bool.false_eq_true, if_false, hsome]
    · intro o
      obtain ⟨hr1, hr2, hr3, _⟩ := foldl_bumpRemote (computeBackfillSrcsTgts pgb).2
        ((computeBackfillSrcsTgts pgb).1.foldl bumpBackfillsFrom bs.osds) o
      obtain ⟨hb1, hb2, hb3, _⟩ := foldl_bumpBackfillsFrom (computeBackfillSrcsTgts pgb).1
        bs.osds o
      obtain ⟨hl1, hl2, hl3⟩ := bumpLocal_fields ((computeBackfillSrcsTgts pgb).2.foldl bumpRemote ((computeBackfillSrcsTgts pgb).1.foldl bumpBackfillsFrom bs.osds)) p o
      refine ⟨?_, ?_, ?_⟩
      · rw [hl1, hr2, hb1, srcs_count_eq]
      · rw [hl2, hr1, hb2, tgts_count_eq]
      · rw [hl3, hr3, hb3]
        by_cases hop : o = p
        · subst hop
          simp [hte, hsome]
        · have hnp : ¬ (primaryOsd pgb = some o) := by
            rw [hsome]
            intro hco
            exact hop (Option.some_inj.mp hco).symm
          simp [hop, hnp]

/-- C3 counterexample: a degraded slot (`up[0] = 5`, `acting[0] = NONE`)
contributes `backfillsFrom(NONE) += 1`, `remoteReservations(5) += 1` and a
local reservation on the primary, where the claim requires it to contribute
nothing to any counter. -/
theorem c3_counterexample :
    (match addReservations c3bs0 c3pgb with
     | some bs => ((bs.osds 5).remoteReservations,
         (bs.osds invalidOSD).backfillsFrom, (bs.osds 1).localReservations)
     | none => (0, 0, 0)) = (1, 1, 1) ∧
      c3pgb.Acting.get? 0 = some invalidOSD := by
  constructor <;> rfl

/-- C3 witness: the amended per-slot accounting at the degraded PG. -/
theorem c3_counts_witness :
    ∃ bs', addReservations c3bs0 c3pgb = some bs' ∧
      (bs'.osds 5).remoteReservations = 1 := by
  obtain ⟨bs', hadd, hcounts⟩ := c3_addReservations_counts c3bs0 c3pgb
    (fun _ => by rfl)
  obtain ⟨_, hr, _⟩ := hcounts 5
  refine ⟨bs', hadd, ?_⟩
  rw [hr]
  rfl

/-- The up-member loop of `isCandidateMapping` accepts iff no member other
than the source has the target's nearest bucket of the given type (assuming
each such member resolves to a node with such an ancestor). -/
theorem upMembersCheck_spec (idToNode : Int → Option osdTreeNode)
    (fuel : Nat) (T : String) (sourceOsd : Int) (ptID : Int) :
    ∀ l : List Int,
      (∀ u ∈ l, u ≠ sourceOsd → ∃ un pu, idToNode u = some un ∧
        getNearestParentOfType idToNode fuel un T = some pu) →
      (upMembersCheck idToNode fuel T sourceOsd ptID l = some true ↔
        ∀ u ∈ l, u ≠ sourceOsd → ∀ un pu, idToNode u = some un →
          getNearestParentOfType idToNode fuel un T = some pu → pu.ID ≠ ptID) := by
  intro l
  induction l with
  | nil => intro _; simp [upMembersCheck]
  | cons u rest ih =>
    intro htot
    have htot' : ∀ v ∈ rest, v ≠ sourceOsd → ∃ un pu, idToNode v = some un ∧
        getNearestParentOfType idToNode fuel un T = some pu :=
      fun v hv => htot v (List.mem_cons_of_mem u hv)
    by_cases hu : u = sourceOsd
    · have hstep : upMembersCheck idToNode fuel T sourceOsd ptID (u :: rest)
          = upMembersCheck idToNode fuel T sourceOsd ptID rest := by
        simp only [upMembersCheck, if_pos hu]
      rw [hstep, ih htot']
      constructor
      · intro h v hv
        rcases List.mem_cons.mp hv with hveq | hvm
        · intro hvs
          exact absurd (hveq.trans hu) hvs
        · exact h v hvm
      · intro h v hv
        exact h v (List.mem_cons_of_mem u hv)
    · obtain ⟨un, pu, hun, hpu⟩ := htot u (List.mem_cons_self u rest) hu
      have hstep : upMembersCheck idToNode fuel T sourceOsd ptID (u :: rest)
          = if pu.ID = ptID then some false
            else upMembersCheck idToNode fuel T sourceOsd ptID rest := by
        simp only [upMembersCheck, if_neg hu, hun, hpu]
      rw [hstep]
      by_cases hid : pu.ID = ptID
      · rw [if_pos hid]
        constructor
        · intro h; exact absurd (Option.some_inj.mp h) (by simp)
        · intro h
          exact absurd hid (h u (List.mem_cons_self u rest) hu un pu hun hpu)
      · rw [if_neg hid, ih htot']
        constructor
        · intro h v hv hvs vn pv h1 h2
          rcases List.mem_cons.mp hv with hveq | hvm
          · subst hveq
            rw [hun] at h1
            obtain rfl := Option.some_inj.mp h1
            rw [hpu] at h2
            obtain rfl := Option.some_inj.mp h2
            exact hid
          · exact h v hvm hvs vn pv h1 h2
        · intro h v hv
          exact h v (List.mem_cons_of_mem u hv)

/-- C8: the drain locality test. With the empty locality type a candidate
is admitted iff target and source share their immediate CRUSH parent; with
a named type `T` iff the nearest `T`-buckets of source and target share
their own parent and no other up member of the PG resolves to the target's
`T`-bucket. -/
theorem c8_isCandidateMapping_locality (idToNode : Int → Option osdTreeNode)
    (fuel : Nat) (T : String) (sourceOsd targetOsd : Int) (pg : pgBriefItem)
    (sNode tNode : osdTreeNode)
    (hs : idToNode sourceOsd = some sNode)
    (ht : idToNode targetOsd = some tNode)
    (hne : targetOsd ≠ sourceOsd) :
    (T = "" →
      (isCandidateMapping idToNode fuel T sourceOsd targetOsd pg = some true ↔
        tNode.parent = sNode.parent)) ∧
    (∀ ps pt : osdTreeNode, T ≠ "" →
      getNearestParentOfType idToNode fuel sNode T = some ps →
      getNearestParentOfType idToNode fuel tNode T = some pt →
      (∀ u ∈ pg.Up, u ≠ sourceOsd → ∃ un pu, idToNode u = some un ∧
        getNearestParentOfType idToNode fuel un T = some pu) →
      (isCandidateMapping idToNode fuel T sourceOsd targetOsd pg = some true ↔
        (ps.parent = pt.parent ∧
          ∀ u ∈ pg.Up, u ≠ sourceOsd → ∀ un pu, idToNode u = some un →
            getNearestParentOfType idToNode fuel un T = some pu →
            pu.ID ≠ pt.ID))) := by
  constructor
  · intro hT
    subst hT
    have hstep : isCandidateMapping idToNode fuel "" sourceOsd targetOsd pg
        = some (decide (tNode.parent = sNode.parent)) := by
      simp only [isCandidateMapping, if_neg hne, hs, ht, if_pos]
    rw [hstep]
    simp
  · intro ps pt hT hps hpt htot
    have hstep : isCandidateMapping idToNode fuel T sourceOsd targetOsd pg
        = if ps.parent ≠ pt.parent then some false
          else upMembersCheck idToNode fuel T sourceOsd pt.ID pg.Up := by
      simp only [isCandidateMapping, if_neg hne, hs, ht, if_neg hT, hps, hpt]
    rw [hstep]
    by_cases hpar : ps.parent = pt.parent
    · rw [if_neg (fun hc => hc hpar)]
      rw [upMembersCheck_spec idToNode fuel T sourceOsd pt.ID pg.Up htot]
      constructor
      · intro h; exact ⟨hpar, h⟩
      · intro h; exact h.2
    · rw [if_pos hpar]
      constructor
      · intro h; exact absurd (Option.some_inj.mp h) (by simp)
      · intro h; exact absurd h.1 hpar

/-- C8 witness: both locality modes at a concrete tree — same-host move
with the empty type, and cross-host move under the same rack with type
`host`. -/
theorem c8_isCandidateMapping_witness :
    isCandidateMapping c8tree 5 "" 1 2 c8pg = some true ∧
      isCandidateMapping c8tree 5 "host" 1 8 c8pg = some true := by
  constructor
  · exact ((c8_isCandidateMapping_locality c8tree 5 "" 1 2 c8pg
      { ID := 1, Typ := "osd", parent := some (-1) }
      { ID := 2, Typ := "osd", parent := some (-1) }
      rfl rfl (by decide)).1 rfl).mpr rfl
  · refine ((c8_isCandidateMapping_locality c8tree 5 "host" 1 8 c8pg
      { ID := 1, Typ := "osd", parent := some (-1) }
      { ID := 8, Typ := "osd", parent := some (-3) }
      rfl rfl (by decide)).2
      { ID := -1, Typ := "host", parent := some (-2) }
      { ID := -3, Typ := "host", parent := some (-2) }
      (by decide) rfl rfl ?_).mpr ⟨rfl, ?_⟩
    · intro u hu hnu
      have : u = 1 := by simpa [c8pg] using hu
      exact absurd this hnu
    · intro u hu hnu
      have : u = 1 := by simpa [c8pg] using hu
      exact absurd this hnu

/-- On a sorted item list, `findOrMakeUpmapItem` (whose linear least-index
search coincides with the Go binary search there) returns a sorted list
whose members are the old ones plus possibly the fresh item, positions the
located item at the returned index, exposes it under `pgid`, leaves every
other PG's lookup unchanged, and leaves the list untouched when the PG was
already present. -/
theorem findOrMake_spec (pgid : String) :
    ∀ items : List pgUpmapItem, itemsSorted items →
      itemsSorted (findOrMakeUpmapItem items pgid).2 ∧
      (∀ x ∈ (findOrMakeUpmapItem items pgid).2,
        x ∈ items ∨ x = newUpmapItem pgid) ∧
      (findOrMakeUpmapItem items pgid).2.get? (findOrMakeUpmapItem items pgid).1
        = some ((findItem items pgid).getD (newUpmapItem pgid)) ∧
      findItem (findOrMakeUpmapItem items pgid).2 pgid
        = some ((findItem items pgid).getD (newUpmapItem pgid)) ∧
      (∀ q, q ≠ pgid →
        findItem (findOrMakeUpmapItem items pgid).2 q = findItem items q) ∧
      ((findItem items pgid).isSome = true →
        (findOrMakeUpmapItem items pgid).2 = items) := by
  intro items
  induction items with
  | nil =>
    intro _
    have hres : findOrMakeUpmapItem [] pgid = (0, [newUpmapItem pgid]) := rfl
    simp only [hres]
    refine ⟨?_, ?_, ?_, ?_, ?_, ?_⟩
    · exact List.pairwise_singleton _ _
    · intro x hx
      right
      simpa using hx
    · simp [findItem]
    · simp [findItem, newUpmapItem]
    · intro q hq
      have hqf : (pgid == q) = false := by simpa using fun h => hq h.symm
      simp [findItem, newUpmapItem, List.find?_cons, hqf]
    · intro h
      simp [findItem] at h
  | cons a rest ih =>
    intro hs
    have hsrest : itemsSorted rest := (List.pairwise_cons.mp hs).2
    have hhead : ∀ x ∈ rest, a.PgID < x.PgID := (List.pairwise_cons.mp hs).1
    by_cases hlt : a.PgID < pgid
    · -- predicate false at the head: recurse into the tail
      have hfid : (a :: rest).findIdx (fun p => !(decide (p.PgID < pgid)))
          = rest.findIdx (fun p => !(decide (p.PgID < pgid))) + 1 := by
        rw [List.findIdx_cons]
        simp [hlt]
      have hane : a.PgID ≠ pgid := ne_of_lt hlt
      have habeq : (a.PgID == pgid) = false := by
        simpa using hane
      obtain ⟨ih1, ih2, ih3, ih4, ih5, ih6⟩ := ih hsrest
      have hres : findOrMakeUpmapItem (a :: rest) pgid
          = ((findOrMakeUpmapItem rest pgid).1 + 1,
             a :: (findOrMakeUpmapItem rest pgid).2) := by
        rw [findOrMakeUpmapItem, hfid, findOrMakeUpmapItem]
        rw [List.get?_cons_succ]
        cases hg : rest.get? (rest.findIdx (fun p => !(decide (p.PgID < pgid)))) with
        | none =>
          simp only [List.take_succ_cons, List.drop_succ_cons, List.cons_append,
            List.singleton_append]
        | some p =>
          by_cases hp : p.PgID = pgid
          · simp only [if_pos hp]
          · simp only [if_neg hp, List.take_succ_cons, List.drop_succ_cons,
              List.cons_append, List.singleton_append]
      have hfind_cons : findItem (a :: rest) pgid = findItem rest pgid := by
        simp [findItem, List.find?_cons, habeq]
      rw [hres]
      refine ⟨?_, ?_, ?_, ?_, ?_, ?_⟩
      · rw [itemsSorted, List.pairwise_cons]
        refine ⟨?_, ih1⟩
        intro x hx
        rcases ih2 x hx with hmem | hnew
        · exact hhead x hmem
        · rw [hnew]
          exact hlt
      · intro x hx
        rcases List.mem_cons.mp hx with hxa | hx2
        · refine Or.inl ?_
          rw [hxa]
          exact List.mem_cons_self _ _
        · rcases ih2 x hx2 with hmem | hnew
          · exact Or.inl (List.mem_cons_of_mem _ hmem)
          · exact Or.inr hnew
      · rw [List.get?_cons_succ, hfind_cons]
        exact ih3
      · rw [hfind_cons]
        simp only [findItem, List.find?_cons, habeq, cond_false]
        exact ih4
      · intro q hq
        by_cases haq : a.PgID = q
        · simp [findItem, List.find?_cons, haq]
        · have : (a.PgID == q) = false := by simpa using haq
          simp only [findItem, List.find?_cons, this, cond_false]
          exact ih5 q hq
      · intro hsome
        rw [hfind_cons] at hsome
        rw [ih6 hsome]
    · -- predicate true at the head
      have hfid : (a :: rest).findIdx (fun p => !(decide (p.PgID < pgid))) = 0 := by
        rw [List.findIdx_cons]
        simp [hlt]
      by_cases heq : a.PgID = pgid
      · -- already present at the head
        have habeq : (a.PgID == pgid) = true := by simpa using heq
        have hres : findOrMakeUpmapItem (a :: rest) pgid = (0, a :: rest) := by
          rw [findOrMakeUpmapItem, hfid]
          simp [heq]
        have hfind : findItem (a :: rest) pgid = some a := by
          simp [findItem, List.find?_cons, habeq]
        rw [hres, hfind]
        exact ⟨hs, fun x hx => Or.inl hx, rfl, rfl, fun q _ => rfl, fun _ => rfl⟩
      · -- absent: the fresh item is inserted in front
        have hgt : pgid < a.PgID :=
          lt_of_le_of_ne (not_lt.mp hlt) (fun h => heq h.symm)
        have habeq : (a.PgID == pgid) = false := by simpa using heq
        have hnone : findItem (a :: rest) pgid = none := by
          simp only [findItem, List.find?_cons, habeq, cond_false]
          rw [List.find?_eq_none]
          intro x hx
          have : pgid < x.PgID := lt_trans hgt (hhead x hx)
          simpa using (ne_of_lt this).symm
        have hres : findOrMakeUpmapItem (a :: rest) pgid
            = (0, newUpmapItem pgid :: a :: rest) := by
          rw [findOrMakeUpmapItem, hfid]
          simp [heq]
        rw [hres, hnone]
        refine ⟨?_, ?_, rfl, ?_, ?_, ?_⟩
        · rw [itemsSorted, List.pairwise_cons]
          refine ⟨?_, hs⟩
          intro x hx
          rcases List.mem_cons.mp hx with rfl | hx2
          · exact hgt
          · exact lt_trans hgt (hhead x hx2)
        · intro x hx
          rcases List.mem_cons.mp hx with rfl | hx2
          · exact Or.inr rfl
          · exact Or.inl hx2
        · simp [findItem, List.find?_cons, newUpmapItem]
        · intro q hq
          have : ((newUpmapItem pgid).PgID == q) = false := by
            simp only [newUpmapItem]
            simpa using fun h => hq h.symm
          simp [findItem, List.find?_cons, this]
        · intro hsome
          simp at hsome

/-- Replacing the item at a known position by one with the same PG id
keeps the list sorted, updates that PG's lookup, and leaves the others. -/
theorem findItem_set (pgid : String) :
    ∀ (items : List pgUpmapItem) (i : Nat) (p v : pgUpmapItem),
      itemsSorted items → items.get? i = some p → p.PgID = pgid →
      v.PgID = pgid →
      itemsSorted (items.set i v) ∧
      findItem (items.set i v) pgid = some v ∧
      (∀ q, q ≠ pgid → findItem (items.set i v) q = findItem items q) := by
  intro items
  induction items with
  | nil => intro i p v _ hget; simp at hget
  | cons a rest ih =>
    intro i p v hs hget hp hv
    have hsrest : itemsSorted rest := (List.pairwise_cons.mp hs).2
    have hhead : ∀ x ∈ rest, a.PgID < x.PgID := (List.pairwise_cons.mp hs).1
    cases i with
    | zero =>
      have ha : a = p := by simpa using hget
      subst ha
      have hvp : v.PgID = a.PgID := hv.trans hp.symm
      refine ⟨?_, ?_, ?_⟩
      · rw [List.set]
        rw [itemsSorted, List.pairwise_cons]
        refine ⟨?_, hsrest⟩
        intro x hx
        rw [hvp]
        exact hhead x hx
      · rw [List.set]
        have : (v.PgID == pgid) = true := by simpa using hv
        simp [findItem, List.find?_cons, this]
      · intro q hq
        rw [List.set]
        have h1 : (v.PgID == q) = false := by
          rw [hv]; simpa using fun h => hq h.symm
        have h2 : (a.PgID == q) = false := by
          rw [hp]; simpa using fun h => hq h.symm
        simp [findItem, List.find?_cons, h1, h2]
    | succ j =>
      have hget' : rest.get? j = some p := by simpa using hget
      have hpmem : p ∈ rest := List.get?_mem hget'
      have halt : a.PgID < pgid := hp ▸ hhead p hpmem
      have habeq : (a.PgID == pgid) = false := by
        simpa using ne_of_lt halt
      obtain ⟨ihs, ihf, iho⟩ := ih j p v hsrest hget' hp hv
      refine ⟨?_, ?_, ?_⟩
      · rw [List.set]
        rw [itemsSorted, List.pairwise_cons]
        refine ⟨?_, ihs⟩
        intro x hx
        rcases List.mem_or_eq_of_mem_set hx with hmem | rfl
        · exact hhead x hmem
        · rw [hv]; exact halt
      · rw [List.set]
        simp only [findItem, List.find?_cons, habeq, cond_false]
        exact ihf
      · intro q hq
        rw [List.set]
        by_cases haq : a.PgID = q
        · have : (a.PgID == q) = true := by simpa using haq
          simp [findItem, List.find?_cons, this]
        · have : (a.PgID == q) = false := by simpa using haq
          simp only [findItem, List.find?_cons, this, cond_false]
          exact iho q hq

/-- A sorted item list holds at most one item per PG id. -/
theorem sorted_filter_length_le_one (q : String) :
    ∀ items : List pgUpmapItem, itemsSorted items →
      (items.filter (fun p => p.PgID == q)).length ≤ 1 := by
  intro items
  induction items with
  | nil => intro _; simp
  | cons a rest ih =>
    intro hs
    have hsrest : itemsSorted rest := (List.pairwise_cons.mp hs).2
    have hhead : ∀ x ∈ rest, a.PgID < x.PgID := (List.pairwise_cons.mp hs).1
    by_cases ha : a.PgID = q
    · have hnone : rest.filter (fun p => p.PgID == q) = [] := by
        rw [List.filter_eq_nil]
        intro x hx
        have : a.PgID < x.PgID := hhead x hx
        rw [ha] at this
        simpa using (ne_of_lt this).symm
      have : (a.PgID == q) = true := by simpa using ha
      simp [List.filter_cons, this, hnone]
    · have : (a.PgID == q) = false := by simpa using ha
      simp only [List.filter_cons, this, cond_false]
      exact ih hsrest

/-- C10: the constructor's sort leaves the item list ordered by PG id
(non-decreasing), and on a sorted list (strict, since ids are unique)
`findOrMakeUpmapItem` keeps the list sorted, returns the index of an item
whose id is the requested one, leaves the list untouched when the PG
already has an item, and never leaves two items for the same PG. -/
theorem c10_item_list_sorted (pgid : String) (items : List pgUpmapItem)
    (hs : itemsSorted items) :
    (∀ l : List pgUpmapItem,
      (sortUpmapItems l).Pairwise (fun a b => a.PgID ≤ b.PgID)) ∧
    itemsSorted (findOrMakeUpmapItem items pgid).2 ∧
    ((findOrMakeUpmapItem items pgid).2.get?
      (findOrMakeUpmapItem items pgid).1).map pgUpmapItem.PgID = some pgid ∧
    ((findItem items pgid).isSome = true →
      (findOrMakeUpmapItem items pgid).2 = items) ∧
    ((findOrMakeUpmapItem items pgid).2.filter
      (fun p => p.PgID == pgid)).length = 1 := by
  obtain ⟨h1, _, h3, h4, _, h6⟩ := findOrMake_spec pgid items hs
  have hlocated : ((findItem items pgid).getD (newUpmapItem pgid)).PgID = pgid := by
    cases hfi : findItem items pgid with
    | none => rfl
    | some p =>
      have := List.find?_some hfi
      simpa using this
  refine ⟨?_, h1, ?_, h6, ?_⟩
  · intro l
    have h := @List.sorted_mergeSort pgUpmapItem
      (fun a b : pgUpmapItem => decide (a.PgID ≤ b.PgID))
      (by intro a b c hab hbc; simp at *; exact le_trans hab hbc)
      (by intro a b; simp; exact le_total _ _)
      l
    rw [sortUpmapItems]
    exact List.Pairwise.imp (by intro a b hab; simpa using hab) h
  · rw [h3]
    simp [hlocated]
  · have hmem : ((findItem items pgid).getD (newUpmapItem pgid))
        ∈ (findOrMakeUpmapItem items pgid).2 :=
      List.mem_of_find?_eq_some h4
    have hfmem : ((findItem items pgid).getD (newUpmapItem pgid))
        ∈ (findOrMakeUpmapItem items pgid).2.filter (fun p => p.PgID == pgid) := by
      rw [List.mem_filter]
      exact ⟨hmem, by simpa using hlocated⟩
    have hge : 1 ≤ ((findOrMakeUpmapItem items pgid).2.filter
        (fun p => p.PgID == pgid)).length := by
      cases hl : (findOrMakeUpmapItem items pgid).2.filter (fun p => p.PgID == pgid) with
      | nil => rw [hl] at hfmem; simp at hfmem
      | cons x xs => simp
    have hle := sorted_filter_length_le_one pgid
      (findOrMakeUpmapItem items pgid).2 h1
    omega

/-- C10 witness: a fresh PG inserted into a concrete sorted list. -/
theorem c10_item_list_sorted_witness :
    itemsSorted c10items ∧
      ((findOrMakeUpmapItem c10items "1.2").2.filter
        (fun p => p.PgID == "1.2")).length = 1 := by
  have hsorted : itemsSorted c10items := by
    unfold itemsSorted c10items
    decide
  have h := c10_item_list_sorted "1.2" c10items hsorted
  exact ⟨hsorted, h.2.2.2.2⟩

/-- `getD` agrees with a known `get?` result. -/
theorem getD_from_get? (l : List pgUpmapItem) (n : Nat) (d x : pgUpmapItem)
    (h : l.get? n = some x) : l.getD n d = x := by
  simp [List.getD_eq_getElem?_getD, ← List.get?_eq_getElem?, h]

/-- The accounting tail of `tryRemap` never reports a conflict: it either
succeeds or panics inside `accountForRemap`. -/
theorem applyAccount_ne_conflict (pools : String → Option Bool)
    (s : mappingState) (items : List pgUpmapItem) (i : Nat)
    (pui2 : pgUpmapItem) (pgid : String) (f t : Int) (s' : mappingState) :
    applyAccount pools s items i pui2 pgid f t ≠ .conflict s' := by
  intro hcon
  rw [applyAccount] at hcon
  cases haccount : accountForRemap pools s.bs pgid f t with
  | none =>
    rw [haccount] at hcon
    exact remapResult.noConfusion hcon
  | some bs2 =>
    rw [haccount] at hcon
    exact remapResult.noConfusion hcon

/-- Inversion of a conflicting `tryRemap`: the state it returns is the
input with the located item marked dirty and the change-state advanced;
the mapping scan reported a conflict, and no exact duplicate was present. -/
theorem tryRemap_conflict_inv (pools : String → Option Bool)
    (s : mappingState) (pgid : String) (f t : Int) (s' : mappingState)
    (h : tryRemap pools s pgid f t = .conflict s') :
    s' = { s with
      pgUpmapItems := (fmItems s pgid).set (fmIdx s pgid)
        { fmPui s pgid with dirty := true },
      changeState := .ChangesPending } ∧
    scanMappings f t [] (fmPui s pgid).Mappings = .conflict ∧
    (fmPui s pgid).Mappings.any (fun m => m.From == f && m.To == t) = false := by
  simp only [fmItems, fmIdx, fmPui]
  simp only [tryRemap] at h
  by_cases hdup : ((findOrMakeUpmapItem s.pgUpmapItems pgid).2.getD
      (findOrMakeUpmapItem s.pgUpmapItems pgid).1 (newUpmapItem pgid)).Mappings.any
      (fun m => m.From == f && m.To == t) = true
  · rw [if_pos hdup] at h
    exact absurd h (fun hh => remapResult.noConfusion hh)
  · rw [if_neg hdup] at h
    cases hscan : scanMappings f t []
        ((findOrMakeUpmapItem s.pgUpmapItems pgid).2.getD
          (findOrMakeUpmapItem s.pgUpmapItems pgid).1 (newUpmapItem pgid)).Mappings with
    | conflict =>
      rw [hscan] at h
      injection h with h2
      exact ⟨h2.symm, rfl, by simpa using hdup⟩
    | inverse nm rem =>
      rw [hscan] at h
      exact absurd h (applyAccount_ne_conflict _ _ _ _ _ _ _ _ _)
    | chain nm rem =>
      rw [hscan] at h
      exact absurd h (applyAccount_ne_conflict _ _ _ _ _ _ _ _ _)
    | fresh =>
      rw [hscan] at h
      exact absurd h (applyAccount_ne_conflict _ _ _ _ _ _ _ _ _)

/-- C9: when `tryRemap` returns a conflict, every PG's mapping list, the
backfill state (up vectors and counters) are unchanged, but the PG's item
is already marked dirty and the change-state has advanced to
`ChangesPending`. -/
theorem c9_conflict_state (pools : String → Option Bool) (s : mappingState)
    (pgid : String) (f t : Int) (s' : mappingState)
    (hs : itemsSorted s.pgUpmapItems)
    (h : tryRemap pools s pgid f t = .conflict s') :
    (∀ q, lookupMappings s'.pgUpmapItems q = lookupMappings s.pgUpmapItems q) ∧
    s'.bs = s.bs ∧
    s'.changeState = .ChangesPending ∧
    (findItem s'.pgUpmapItems pgid).map pgUpmapItem.dirty = some true ∧
    itemsSorted s'.pgUpmapItems := by
  obtain ⟨heq, hscan, _⟩ := tryRemap_conflict_inv pools s pgid f t s' h
  have hnonnil : (fmPui s pgid).Mappings ≠ [] := by
    intro hnil
    rw [hnil] at hscan
    simp [scanMappings] at hscan
  obtain ⟨_, _, sp3, _, _, sp6⟩ := findOrMake_spec pgid s.pgUpmapItems hs
  have hpresent : ∃ p, findItem s.pgUpmapItems pgid = some p := by
    cases hfi : findItem s.pgUpmapItems pgid with
    | some p => exact ⟨p, rfl⟩
    | none =>
      exfalso
      apply hnonnil
      have : fmPui s pgid = newUpmapItem pgid := by
        apply getD_from_get?
        rw [show (fmItems s pgid).get? (fmIdx s pgid)
            = (findOrMakeUpmapItem s.pgUpmapItems pgid).2.get?
              (findOrMakeUpmapItem s.pgUpmapItems pgid).1 from rfl, sp3, hfi]
        rfl
      rw [this]
      rfl
  obtain ⟨p0, hp0⟩ := hpresent
  have hitems_eq : fmItems s pgid = s.pgUpmapItems := sp6 (by rw [hp0]; rfl)
  have hp0pg : p0.PgID = pgid := by
    have := List.find?_some hp0
    simpa using this
  have hpui0 : fmPui s pgid = p0 := by
    apply getD_from_get?
    rw [show (fmItems s pgid).get? (fmIdx s pgid)
        = (findOrMakeUpmapItem s.pgUpmapItems pgid).2.get?
          (findOrMakeUpmapItem s.pgUpmapItems pgid).1 from rfl, sp3, hp0]
    rfl
  have hgetp : s.pgUpmapItems.get? (fmIdx s pgid) = some p0 := by
    rw [← hitems_eq]
    rw [show (fmItems s pgid).get? (fmIdx s pgid)
        = (findOrMakeUpmapItem s.pgUpmapItems pgid).2.get?
          (findOrMakeUpmapItem s.pgUpmapItems pgid).1 from rfl, sp3, hp0]
    rfl
  obtain ⟨hset_sorted, hset_find, hset_other⟩ :=
    findItem_set pgid s.pgUpmapItems (fmIdx s pgid) p0
      { p0 with dirty := true } hs hgetp hp0pg hp0pg
  have hsrw : s'.pgUpmapItems
      = s.pgUpmapItems.set (fmIdx s pgid) { p0 with dirty := true } := by
    rw [heq]
    simp only [hitems_eq, hpui0]
  refine ⟨?_, by rw [heq], by rw [heq], ?_, ?_⟩
  · intro q
    by_cases hq : q = pgid
    · subst hq
      rw [hsrw]
      rw [lookupMappings, hset_find, lookupMappings, hp0]
      rfl
    · rw [hsrw, lookupMappings, hset_other q hq, lookupMappings]
  · rw [hsrw, hset_find]
    rfl
  · rw [hsrw]
    exact hset_sorted

/-- C9 witness: a concrete conflicting remap leaves the mapping list and
backfill state alone but dirties the item and advances the change-state. -/
theorem c9_conflict_state_witness :
    ∃ s', tryRemap cpools c1wstate "1.0" 0 5 = .conflict s' ∧
      s'.changeState = .ChangesPending ∧
      (findItem s'.pgUpmapItems "1.0").map pgUpmapItem.dirty = some true ∧
      lookupMappings s'.pgUpmapItems "1.0"
        = lookupMappings c1wstate.pgUpmapItems "1.0" := by
  have hs : itemsSorted c1wstate.pgUpmapItems := by
    unfold itemsSorted c1wstate
    decide
  obtain ⟨s', hconf⟩ : ∃ s', tryRemap cpools c1wstate "1.0" 0 5 = .conflict s' :=
    ⟨_, by rfl⟩
  obtain ⟨hlook, _, hcs, hdirty, _⟩ :=
    c9_conflict_state cpools c1wstate "1.0" 0 5 s' hs hconf
  exact ⟨s', hconf, hcs, hdirty, hlook "1.0"⟩


/-- The mappings `tryRemap` scans are exactly those recorded for the PG (or
none, for a PG without an item), provided the item list is sorted. -/
theorem fmPui_mappings (s : mappingState) (pgid : String)
    (hs : itemsSorted s.pgUpmapItems) :
    (fmPui s pgid).Mappings = (lookupMappings s.pgUpmapItems pgid).getD [] := by
  obtain ⟨_, _, sp3, _, _, _⟩ := findOrMake_spec pgid s.pgUpmapItems hs
  have hpui : fmPui s pgid
      = (findItem s.pgUpmapItems pgid).getD (newUpmapItem pgid) := by
    apply getD_from_get?
    exact sp3
  rw [hpui, lookupMappings]
  cases hfi : findItem s.pgUpmapItems pgid with
  | none => rfl
  | some p => rfl

/-- The scan of `tryRemap` reports a conflict exactly when the first
mapping interacting with the edit (in list order) has a target other than
`from`; the already-scanned prefix is irrelevant. -/
theorem scanMappings_conflict_iff (f t : Int) :
    ∀ ms acc : List mapping,
      scanMappings f t acc ms = .conflict ↔
        ∃ m, ms.find? (interactsWith f t) = some m ∧ m.To ≠ f := by
  intro ms
  induction ms with
  | nil =>
    intro acc
    simp [scanMappings]
  | cons m rest ih =>
    intro acc
    by_cases h1 : m.From = t ∧ m.To = f
    · have hint : interactsWith f t m = true := by
        simp [interactsWith, h1.1]
      apply iff_of_false
      · simp [scanMappings, if_pos h1]
      · rw [List.find?_cons_of_pos _ hint]
        rintro ⟨m1, hm1, hne⟩
        injection hm1 with hm1
        exact hne (hm1 ▸ h1.2)
    · by_cases h2 : m.To = f
      · have hint : interactsWith f t m = true := by
          simp [interactsWith, h2]
        apply iff_of_false
        · simp [scanMappings, if_neg h1, if_pos h2]
        · rw [List.find?_cons_of_pos _ hint]
          rintro ⟨m1, hm1, hne⟩
          injection hm1 with hm1
          exact hne (hm1 ▸ h2)
      · by_cases h3 : m.From = t ∨ m.From = f ∨ m.To = t
        · have hint : interactsWith f t m = true := by
            rcases h3 with h | h | h <;> simp [interactsWith, h]
          apply iff_of_true
          · simp [scanMappings, if_neg h1, if_neg h2, if_pos h3]
          · rw [List.find?_cons_of_pos _ hint]
            exact ⟨m, rfl, h2⟩
        · have hint : interactsWith f t m = false := by
            push_neg at h3
            simp [interactsWith, h3.1, h3.2.1, h3.2.2, h2]
          have hstep : scanMappings f t acc (m :: rest)
              = scanMappings f t (acc ++ [m]) rest := by
            simp [scanMappings, if_neg h1, if_neg h2, if_neg h3]
          rw [hstep, List.find?_cons_of_neg _ (by simp [hint])]
          exact ih (acc ++ [m])

/-- C1: over a sorted item list, `tryRemap(pg, from, to)` fails with a
conflict error iff the PG's recorded mappings contain no exact duplicate
`(from, to)` and the first mapping interacting with the edit — overlapping
`from` or `to` on either endpoint, in list order — is unresolvable, i.e.
its target differs from `from` (so it is neither the exact inverse
`(to, from)` nor a chain `X → from`); mappings after that first
interacting one are never consulted. -/
theorem c1_conflict_iff_first_interacting (pools : String → Option Bool)
    (s : mappingState) (pgid : String) (f t : Int)
    (hs : itemsSorted s.pgUpmapItems) :
    (∃ s1, tryRemap pools s pgid f t = .conflict s1) ↔
      (∀ m ∈ (lookupMappings s.pgUpmapItems pgid).getD [],
        ¬(m.From = f ∧ m.To = t)) ∧
      ∃ m, ((lookupMappings s.pgUpmapItems pgid).getD []).find?
          (interactsWith f t) = some m ∧ m.To ≠ f := by
  have hbr : ((findOrMakeUpmapItem s.pgUpmapItems pgid).2.getD
      (findOrMakeUpmapItem s.pgUpmapItems pgid).1 (newUpmapItem pgid)).Mappings
      = (lookupMappings s.pgUpmapItems pgid).getD [] := by
    have h := fmPui_mappings s pgid hs
    simpa [fmPui, fmItems, fmIdx] using h
  simp only [tryRemap, hbr]
  by_cases hdup : ((lookupMappings s.pgUpmapItems pgid).getD []).any
      (fun m => m.From == f && m.To == t) = true
  · rw [if_pos hdup]
    apply iff_of_false
    · rintro ⟨s1, hok⟩
      exact remapResult.noConfusion hok
    · rintro ⟨hno, -⟩
      simp only [List.any_eq_true] at hdup
      obtain ⟨m, hm, hmd⟩ := hdup
      simp only [Bool.and_eq_true, beq_iff_eq] at hmd
      exact hno m hm hmd
  · rw [if_neg hdup]
    have hnodup : ∀ m ∈ (lookupMappings s.pgUpmapItems pgid).getD [],
        ¬(m.From = f ∧ m.To = t) := by
      intro m hm hc
      apply hdup
      simp only [List.any_eq_true]
      exact ⟨m, hm, by simp [hc.1, hc.2]⟩
    cases hscan : scanMappings f t []
        ((lookupMappings s.pgUpmapItems pgid).getD []) with
    | conflict =>
      apply iff_of_true
      · exact ⟨_, rfl⟩
      · exact ⟨hnodup, (scanMappings_conflict_iff f t _ []).mp hscan⟩
    | inverse nm rem =>
      apply iff_of_false
      · rintro ⟨s1, hc⟩
        exact applyAccount_ne_conflict _ _ _ _ _ _ _ _ _ hc
      · rintro ⟨-, hfind⟩
        have := (scanMappings_conflict_iff f t _ []).mpr hfind
        rw [hscan] at this
        exact scanOutcome.noConfusion this
    | chain nm rem =>
      apply iff_of_false
      · rintro ⟨s1, hc⟩
        exact applyAccount_ne_conflict _ _ _ _ _ _ _ _ _ hc
      · rintro ⟨-, hfind⟩
        have := (scanMappings_conflict_iff f t _ []).mpr hfind
        rw [hscan] at this
        exact scanOutcome.noConfusion this
    | fresh =>
      apply iff_of_false
      · rintro ⟨s1, hc⟩
        exact applyAccount_ne_conflict _ _ _ _ _ _ _ _ _ hc
      · rintro ⟨-, hfind⟩
        have := (scanMappings_conflict_iff f t _ []).mpr hfind
        rw [hscan] at this
        exact scanOutcome.noConfusion this

/-- C1 counterexample: with recorded mappings `[(1→0), (2→5)]` the call
`tryRemap(pg, 0, 5)` succeeds (the chain `1→0` is retargeted), even though
the later mapping `2→5` overlaps the edit on `to` in a way that is not a
duplicate, not the inverse, and not a chain — refuting the claim that any
such overlap anywhere in the list makes the call fail. -/
theorem c1_counterexample :
    (∃ s1, tryRemap cpools c1state "1.0" 0 5 = .ok s1) ∧
    ∃ m ∈ (lookupMappings c1state.pgUpmapItems "1.0").getD [],
      interactsWith 0 5 m = true ∧
      ¬(m.From = 0 ∧ m.To = 5) ∧ ¬(m.From = 5 ∧ m.To = 0) ∧ m.To ≠ 0 := by
  constructor
  · exact ⟨_, by rfl⟩
  · refine ⟨{ From := 2, To := 5, dirty := false }, by decide, by decide,
      by decide, by decide, by decide⟩

/-- C1 witness: a single unresolvable overlap in front position makes the
call conflict. -/
theorem c1_witness :
    itemsSorted c1wstate.pgUpmapItems ∧
      (∃ s1, tryRemap cpools c1wstate "1.0" 0 5 = .conflict s1) := by
  have hs : itemsSorted c1wstate.pgUpmapItems := by
    unfold itemsSorted c1wstate
    decide
  refine ⟨hs, ?_⟩
  apply (c1_conflict_iff_first_interacting cpools c1wstate "1.0" 0 5 hs).mpr
  constructor
  · have hall : ∀ m ∈ (lookupMappings c1wstate.pgUpmapItems "1.0").getD [],
        ¬(m.From = 0 ∧ m.To = 5) := by
      decide
    exact hall
  · exact ⟨{ From := 2, To := 5, dirty := false }, by decide, by decide⟩

/-- An item located by `findItem` carries the PG id it was looked up by. -/
theorem findItem_pgid (items : List pgUpmapItem) (pgid : String)
    (p : pgUpmapItem) (h : findItem items pgid = some p) : p.PgID = pgid := by
  rw [findItem] at h
  have := List.find?_some h
  simpa using this

/-- A prefix of mappings that do not interact with the edit is scanned past
without changing the outcome: it migrates into the accumulator. -/
theorem scanMappings_skip (f t : Int) (ms1 : List mapping)
    (h : ∀ m ∈ ms1, interactsWith f t m = false) :
    ∀ (acc ms2 : List mapping),
      scanMappings f t acc (ms1 ++ ms2)
        = scanMappings f t (acc ++ ms1) ms2 := by
  induction ms1 with
  | nil =>
    intro acc ms2
    simp
  | cons m rest ih =>
    intro acc ms2
    have hm := h m (List.mem_cons_self m rest)
    simp only [interactsWith, Bool.or_eq_false_iff, beq_eq_false_iff_ne,
      ne_eq] at hm
    obtain ⟨⟨⟨ha, hb⟩, hc⟩, hd⟩ := hm
    have hrest : ∀ x ∈ rest, interactsWith f t x = false :=
      fun x hx => h x (List.mem_cons_of_mem m hx)
    have h1 : ¬(m.From = t ∧ m.To = f) := fun hh => ha hh.1
    have h3 : ¬(m.From = t ∨ m.From = f ∨ m.To = t) := by tauto
    have hstep : scanMappings f t acc (m :: (rest ++ ms2))
        = scanMappings f t (acc ++ [m]) (rest ++ ms2) := by
      simp [scanMappings, if_neg h1, if_neg hd, if_neg h3]
    rw [List.cons_append, hstep, ih hrest (acc ++ [m]) ms2]
    congr 1
    simp

/-- When no recorded mapping interacts with the edit, the scan falls off
the end and reports a fresh append. -/
theorem scanMappings_fresh (f t : Int) (ms : List mapping)
    (h : ∀ m ∈ ms, interactsWith f t m = false) :
    scanMappings f t [] ms = .fresh := by
  have h0 := scanMappings_skip f t ms h [] []
  rw [List.append_nil] at h0
  rw [h0]
  rfl

/-- Inversion of a successful `tryRemap` whose scan appended a fresh
mapping: the accounting succeeded and the result is the input with the
located item rebuilt and the change-state advanced. -/
theorem tryRemap_fresh_ok (pools : String → Option Bool) (s : mappingState)
    (pgid : String) (f t : Int) (s1 : mappingState)
    (hdup : (fmPui s pgid).Mappings.any
      (fun m => m.From == f && m.To == t) = false)
    (hscan : scanMappings f t [] (fmPui s pgid).Mappings = .fresh)
    (h : tryRemap pools s pgid f t = .ok s1) :
    ∃ bsA, accountForRemap pools s.bs pgid f t = some bsA ∧
      s1 = { pgUpmapItems := (fmItems s pgid).set (fmIdx s pgid) { fmPui s pgid with dirty := true, Mappings := (fmPui s pgid).Mappings ++ [{ From := f, To := t, dirty := true }] },
             bs := bsA,
             changeState := .ChangesPending } := by
  simp only [fmItems, fmIdx, fmPui] at hdup hscan ⊢
  have hstep : tryRemap pools s pgid f t
      = applyAccount pools s (findOrMakeUpmapItem s.pgUpmapItems pgid).2
        (findOrMakeUpmapItem s.pgUpmapItems pgid).1
        { (findOrMakeUpmapItem s.pgUpmapItems pgid).2.getD
            (findOrMakeUpmapItem s.pgUpmapItems pgid).1 (newUpmapItem pgid) with
          dirty := true,
          Mappings := ((findOrMakeUpmapItem s.pgUpmapItems pgid).2.getD
            (findOrMakeUpmapItem s.pgUpmapItems pgid).1
            (newUpmapItem pgid)).Mappings
              ++ [{ From := f, To := t, dirty := true }] } pgid f t := by
    simp only [tryRemap]
    rw [if_neg (by rw [hdup]; exact Bool.false_ne_true), hscan]
  rw [hstep, applyAccount] at h
  cases haccount : accountForRemap pools s.bs pgid f t with
  | none =>
    rw [haccount] at h
    exact remapResult.noConfusion h
  | some bsA =>
    rw [haccount] at h
    injection h with h2
    exact ⟨bsA, rfl, h2.symm⟩

/-- Inversion of a successful `tryRemap` whose scan found the exact
inverse: the accounting succeeded, the located item is rebuilt with the
scan's mapping list and the removed entry recorded. -/
theorem tryRemap_inverse_ok (pools : String → Option Bool)
    (s : mappingState) (pgid : String) (f t : Int) (s1 : mappingState)
    (nm : List mapping) (rem : mapping)
    (hdup : (fmPui s pgid).Mappings.any
      (fun m => m.From == f && m.To == t) = false)
    (hscan : scanMappings f t [] (fmPui s pgid).Mappings = .inverse nm rem)
    (h : tryRemap pools s pgid f t = .ok s1) :
    ∃ bsA, accountForRemap pools s.bs pgid f t = some bsA ∧
      s1 = { pgUpmapItems := (fmItems s pgid).set (fmIdx s pgid) { fmPui s pgid with dirty := true, Mappings := nm, removedMappings := (fmPui s pgid).removedMappings ++ [rem] },
             bs := bsA,
             changeState := .ChangesPending } := by
  simp only [fmItems, fmIdx, fmPui] at hdup hscan ⊢
  have hstep : tryRemap pools s pgid f t
      = applyAccount pools s (findOrMakeUpmapItem s.pgUpmapItems pgid).2
        (findOrMakeUpmapItem s.pgUpmapItems pgid).1
        { (findOrMakeUpmapItem s.pgUpmapItems pgid).2.getD
            (findOrMakeUpmapItem s.pgUpmapItems pgid).1 (newUpmapItem pgid) with
          dirty := true,
          Mappings := nm,
          removedMappings := ((findOrMakeUpmapItem s.pgUpmapItems pgid).2.getD
            (findOrMakeUpmapItem s.pgUpmapItems pgid).1
            (newUpmapItem pgid)).removedMappings ++ [rem] } pgid f t := by
    simp only [tryRemap]
    rw [if_neg (by rw [hdup]; exact Bool.false_ne_true), hscan]
  rw [hstep, applyAccount] at h
  cases haccount : accountForRemap pools s.bs pgid f t with
  | none =>
    rw [haccount] at h
    exact remapResult.noConfusion h
  | some bsA =>
    rw [haccount] at h
    injection h with h2
    exact ⟨bsA, rfl, h2.symm⟩

/-- C2: over a sorted item list, a `tryRemap(pg, from, to)` whose edit does
not interact with any recorded mapping of the PG, immediately followed by
its inverse `tryRemap(pg, to, from)`, restores every PG's recorded mapping
list exactly; but the state is not byte-identical: the item stays dirty,
the undone mapping is retained in `removedMappings`, and the change-state
has advanced to `ChangesPending`. -/
theorem c2_do_undo_mappings (pools : String → Option Bool)
    (s : mappingState) (pgid : String) (f t : Int) (p : pgUpmapItem)
    (s1 s2 : mappingState)
    (hs : itemsSorted s.pgUpmapItems)
    (hft : f ≠ t)
    (hp : findItem s.pgUpmapItems pgid = some p)
    (hmf : ∀ m ∈ p.Mappings, m.From ≠ f ∧ m.From ≠ t ∧ m.To ≠ f ∧ m.To ≠ t)
    (h1 : tryRemap pools s pgid f t = .ok s1)
    (h2 : tryRemap pools s1 pgid t f = .ok s2) :
    (∀ q, lookupMappings s2.pgUpmapItems q
      = lookupMappings s.pgUpmapItems q) ∧
    (findItem s2.pgUpmapItems pgid).map pgUpmapItem.dirty = some true ∧
    (findItem s2.pgUpmapItems pgid).map pgUpmapItem.removedMappings
      = some (p.removedMappings ++ [{ From := f, To := t, dirty := true }]) ∧
    s2.changeState = .ChangesPending := by
  have hpid : p.PgID = pgid := findItem_pgid s.pgUpmapItems pgid p hp
  obtain ⟨-, -, sp3, -, -, sp6⟩ := findOrMake_spec pgid s.pgUpmapItems hs
  have hfmitems : fmItems s pgid = s.pgUpmapItems := sp6 (by rw [hp]; rfl)
  have sp3a : (fmItems s pgid).get? (fmIdx s pgid) = some p := by
    show (findOrMakeUpmapItem s.pgUpmapItems pgid).2.get?
      (findOrMakeUpmapItem s.pgUpmapItems pgid).1 = some p
    rw [sp3, hp]
    rfl
  have hfmpui : fmPui s pgid = p := getD_from_get? _ _ _ _ sp3a
  have hni : ∀ m ∈ p.Mappings, interactsWith f t m = false := by
    intro m hm
    obtain ⟨ha, hb, hc, hd⟩ := hmf m hm
    simp [interactsWith, ha, hb, hc, hd]
  have hdup1 : (fmPui s pgid).Mappings.any
      (fun m => m.From == f && m.To == t) = false := by
    rw [hfmpui, List.any_eq_false]
    intro m hm
    obtain ⟨ha, -, -, -⟩ := hmf m hm
    simp [ha]
  have hscan1 : scanMappings f t [] (fmPui s pgid).Mappings = .fresh := by
    rw [hfmpui]
    exact scanMappings_fresh f t p.Mappings hni
  obtain ⟨bsA, -, hs1⟩ := tryRemap_fresh_ok pools s pgid f t s1 hdup1 hscan1 h1
  have hget : s.pgUpmapItems.get? (fmIdx s pgid) = some p := by
    rw [← hfmitems]
    exact sp3a
  have hp1id : ({ fmPui s pgid with dirty := true, Mappings := (fmPui s pgid).Mappings ++ [{ From := f, To := t, dirty := true }] } : pgUpmapItem).PgID = pgid := by
    rw [hfmpui]
    exact hpid
  obtain ⟨hs1sorted, hfind1, hother1⟩ := findItem_set pgid s.pgUpmapItems
    (fmIdx s pgid) p _ hs hget hpid hp1id
  have hs1items : s1.pgUpmapItems = s.pgUpmapItems.set (fmIdx s pgid)
      { fmPui s pgid with dirty := true, Mappings := (fmPui s pgid).Mappings ++ [{ From := f, To := t, dirty := true }] } := by
    rw [hs1, hfmitems]
  have hs1sorted2 : itemsSorted s1.pgUpmapItems := by
    rw [hs1items]
    exact hs1sorted
  have hfind1a : findItem s1.pgUpmapItems pgid
      = some { fmPui s pgid with dirty := true, Mappings := (fmPui s pgid).Mappings ++ [{ From := f, To := t, dirty := true }] } := by
    rw [hs1items]
    exact hfind1
  obtain ⟨-, -, sq3, -, -, sq6⟩ := findOrMake_spec pgid s1.pgUpmapItems
    hs1sorted2
  have hfmitems1 : fmItems s1 pgid = s1.pgUpmapItems :=
    sq6 (by rw [hfind1a]; rfl)
  have sq3a : (fmItems s1 pgid).get? (fmIdx s1 pgid)
      = some { fmPui s pgid with dirty := true, Mappings := (fmPui s pgid).Mappings ++ [{ From := f, To := t, dirty := true }] } := by
    show (findOrMakeUpmapItem s1.pgUpmapItems pgid).2.get?
      (findOrMakeUpmapItem s1.pgUpmapItems pgid).1 = some _
    rw [sq3, hfind1a]
    rfl
  have hfmpui1 : fmPui s1 pgid
      = { fmPui s pgid with dirty := true, Mappings := (fmPui s pgid).Mappings ++ [{ From := f, To := t, dirty := true }] } :=
    getD_from_get? _ _ _ _ sq3a
  have hdup2 : (fmPui s1 pgid).Mappings.any
      (fun m => m.From == t && m.To == f) = false := by
    rw [hfmpui1]
    simp only [List.any_eq_false]
    intro m hm
    simp only [List.mem_append, List.mem_singleton] at hm
    rcases hm with hm | hm
    · obtain ⟨-, hb, -, -⟩ := hmf m (by rw [← hfmpui]; exact hm)
      simp [hb]
    · subst hm
      simp
      intro hft2
      exact absurd hft2 hft
  have hni2 : ∀ m ∈ (fmPui s pgid).Mappings, interactsWith t f m = false := by
    intro m hm
    obtain ⟨ha, hb, hc, hd⟩ := hmf m (by rw [← hfmpui]; exact hm)
    simp [interactsWith, ha, hb, hc, hd]
  have hscan2 : scanMappings t f [] (fmPui s1 pgid).Mappings
      = .inverse ((fmPui s pgid).Mappings ++ [])
        { From := f, To := t, dirty := true } := by
    rw [hfmpui1]
    show scanMappings t f []
      ((fmPui s pgid).Mappings ++ [{ From := f, To := t, dirty := true }]) = _
    rw [scanMappings_skip t f (fmPui s pgid).Mappings hni2 []
      [{ From := f, To := t, dirty := true }], List.nil_append]
    simp [scanMappings]
  obtain ⟨bsB, -, hs2⟩ := tryRemap_inverse_ok pools s1 pgid t f s2
    ((fmPui s pgid).Mappings ++ []) { From := f, To := t, dirty := true }
    hdup2 hscan2 h2
  have hget1 : s1.pgUpmapItems.get? (fmIdx s1 pgid)
      = some { fmPui s pgid with dirty := true, Mappings := (fmPui s pgid).Mappings ++ [{ From := f, To := t, dirty := true }] } := by
    rw [← hfmitems1]
    exact sq3a
  have hp2id : ({ fmPui s1 pgid with dirty := true, Mappings := (fmPui s pgid).Mappings ++ [], removedMappings := (fmPui s1 pgid).removedMappings ++ [{ From := f, To := t, dirty := true }] } : pgUpmapItem).PgID = pgid := by
    show (fmPui s1 pgid).PgID = pgid
    rw [hfmpui1]
    show (fmPui s pgid).PgID = pgid
    rw [hfmpui]
    exact hpid
  obtain ⟨-, hfind2, hother2⟩ := findItem_set pgid s1.pgUpmapItems
    (fmIdx s1 pgid) _ _ hs1sorted2 hget1
    (by show (fmPui s pgid).PgID = pgid; rw [hfmpui]; exact hpid)
    hp2id
  have hs2items : s2.pgUpmapItems = s1.pgUpmapItems.set (fmIdx s1 pgid)
      { fmPui s1 pgid with dirty := true, Mappings := (fmPui s pgid).Mappings ++ [], removedMappings := (fmPui s1 pgid).removedMappings ++ [{ From := f, To := t, dirty := true }] } := by
    rw [hs2, hfmitems1]
  refine ⟨?_, ?_, ?_, ?_⟩
  · intro q
    by_cases hq : q = pgid
    · subst hq
      rw [lookupMappings, lookupMappings, hs2items, hfind2, hp]
      show some ((fmPui s q).Mappings ++ []) = some p.Mappings
      rw [List.append_nil, hfmpui]
    · rw [lookupMappings, lookupMappings, hs2items, hother2 q hq, hs1items,
        hother1 q hq]
  · rw [hs2items, hfind2]
    rfl
  · rw [hs2items, hfind2]
    show some ((fmPui s1 pgid).removedMappings
      ++ [{ From := f, To := t, dirty := true }]) = _
    rw [hfmpui1]
    show some ((fmPui s pgid).removedMappings
      ++ [{ From := f, To := t, dirty := true }]) = _
    rw [hfmpui]
  · rw [hs2]

/-- C2 counterexample: a pre-existing mapping `1→2` makes the do/undo pair
`tryRemap(1,2); tryRemap(2,1)` destructive — the first call is a duplicate
no-op and the second removes the pre-existing mapping, so the final state
differs from the initial one in its mapping list and change-state. -/
theorem c2_counterexample :
    tryRemap cpools c2state "1.0" 1 2 = .ok c2state ∧
    tryRemap cpools c2state "1.0" 2 1 = .ok c2final ∧
    lookupMappings c2final.pgUpmapItems "1.0"
      ≠ lookupMappings c2state.pgUpmapItems "1.0" ∧
    c2final.changeState ≠ c2state.changeState := by
  refine ⟨rfl, rfl, by decide, by decide⟩

/-- C2 witness: the do/undo pair on a PG with no recorded mappings restores
the mapping list but leaves the dirty flag, the removed-mapping trace and
the change-state behind. -/
theorem c2_do_undo_witness :
    (∀ q, lookupMappings c2s2.pgUpmapItems q
      = lookupMappings c2wstate.pgUpmapItems q) ∧
    (findItem c2s2.pgUpmapItems "1.0").map pgUpmapItem.dirty = some true ∧
    (findItem c2s2.pgUpmapItems "1.0").map pgUpmapItem.removedMappings
      = some ([] ++ [{ From := 1, To := 2, dirty := true }]) ∧
    c2s2.changeState = .ChangesPending := by
  apply c2_do_undo_mappings cpools c2wstate "1.0" 1 2
    { PgID := "1.0", Mappings := [], removedMappings := [],
      staleMappings := [], dirty := false } c2s1 c2s2
  · unfold itemsSorted c2wstate
    decide
  · decide
  · decide
  · intro m hm
    simp at hm
  · rfl
  · rfl

/-- A fold that turns the accumulator to `false` on any offending element
and otherwise keeps it yields `true` exactly when it started `true` and no
element offends. -/
theorem foldl_guard_eq_true (P : Int → Prop) [DecidablePred P] :
    ∀ (l : List Int) (init : Bool),
      (l.foldl (fun h o => if P o then false else h) init) = true ↔
        init = true ∧ ∀ o ∈ l, ¬P o := by
  intro l
  induction l with
  | nil =>
    intro init
    simp
  | cons o rest ih =>
    intro init
    rw [List.foldl_cons, ih]
    by_cases h : P o
    · rw [if_pos h]
      apply iff_of_false
      · rintro ⟨hf, -⟩
        exact Bool.noConfusion hf
      · rintro ⟨-, hall⟩
        exact hall o (List.mem_cons_self o rest) h
    · rw [if_neg h]
      simp only [List.mem_cons]
      constructor
      · rintro ⟨hi, hall⟩
        exact ⟨hi, fun x hx => hx.elim (fun he => he ▸ h) (hall x)⟩
      · rintro ⟨hi, hall⟩
        exact ⟨hi, fun x hx => hall x (Or.inr hx)⟩

/-- C4: `hasRoomForRemap(pg, from, to)` first rejects — leaving the state
untouched — when the source's `backfillsFrom` has already reached the
global `maxBackfillsFrom` (a pre-edit strict-budget test, not a post-edit
one); otherwise it tentatively applies the edit, answers `true` iff the
(possibly new) primary's `localReservations` and every backfill target's
`remoteReservations` are within their maxima in the applied state, and
hands back the state produced by the inverse accounting — which need not
equal the initial state. -/
theorem c4_hasRoom_spec (pools : String → Option Bool) (bs : backfillState)
    (pgid : String) (f t : Int) (v : Bool) (bs2 : backfillState)
    (h : hasRoomForRemap pools bs pgid f t = some (v, bs2)) :
    ((bs.osds f).backfillsFrom ≥ bs.maxBackfillsFrom →
      v = false ∧ bs2 = bs) ∧
    ((bs.osds f).backfillsFrom < bs.maxBackfillsFrom →
      ∃ bs1 pgb p,
        accountForRemap pools bs pgid f t = some bs1 ∧
        bs1.pgbs pgid = some pgb ∧
        primaryOsd pgb = some p ∧
        accountForRemap pools bs1 pgid t f = some bs2 ∧
        (v = true ↔
          (bs1.osds p).localReservations
            ≤ getMaxBackfillReservations bs1 p ∧
          ∀ o ∈ (computeBackfillSrcsTgts pgb).2,
            (bs1.osds o).remoteReservations
              ≤ getMaxBackfillReservations bs1 o)) := by
  constructor
  · intro hge
    rw [hasRoomForRemap, if_pos hge] at h
    injection h with h1
    injection h1 with ha hb
    exact ⟨ha.symm, hb.symm⟩
  · intro hlt
    rw [hasRoomForRemap, if_neg (not_le.mpr hlt)] at h
    simp only [Option.bind_eq_bind, Option.bind_eq_some] at h
    obtain ⟨bs1, hacc1, pgb, hpgb, p, hp, bs2x, hacc2, hpure⟩ := h
    injection hpure with h1
    injection h1 with hA hB
    refine ⟨bs1, pgb, p, hacc1, hpgb, hp, ?_, ?_⟩
    · rw [← hB]
      exact hacc2
    · rw [← hA, foldl_guard_eq_true]
      constructor
      · rintro ⟨hinit, hall⟩
        constructor
        · by_contra hlocal
          rw [if_pos (not_le.mp hlocal)] at hinit
          exact Bool.noConfusion hinit
        · intro o ho
          exact not_lt.mp (hall o ho)
      · rintro ⟨hlocal, hall⟩
        refine ⟨?_, fun o ho => not_lt.mpr (hall o ho)⟩
        rw [if_neg (not_lt.mpr hlocal)]

/-- C4 counterexample: for PG `1.0` with `up = [3, 1]`, `acting = [1, 2]`
and matching counters, `hasRoomFor(pg, 3, 4)` answers `true` but leaves
`backfillsFrom(1)` and `remoteReservations(1)` dropped from 1 to 0 and the
PG's up vector reordered to `[1, 3]` — refuting the claim that the check
leaves the counters and the up vector unchanged. -/
theorem c4_counterexample :
    (hasRoomForRemap cpools c4bs "1.0" 3 4).map
      (fun r => (r.1, (r.2.osds 1).backfillsFrom,
        (r.2.osds 1).remoteReservations,
        (r.2.pgbs "1.0").map pgBriefItem.Up))
      = some (true, 0, 0, some [1, 3]) ∧
    (c4bs.osds 1).backfillsFrom = 1 ∧
    (c4bs.osds 1).remoteReservations = 1 ∧
    (c4bs.pgbs "1.0").map pgBriefItem.Up = some [3, 1] := by
  refine ⟨rfl, by decide, by decide, by decide⟩

/-- C4 witness: a trivial idle PG exercises the budget-test
characterization at a concrete input. -/
theorem c4_hasRoom_witness :
    ∃ bs1 pgb p,
      accountForRemap cpools c2bs "1.0" 1 2 = some bs1 ∧
      bs1.pgbs "1.0" = some pgb ∧
      primaryOsd pgb = some p ∧
      accountForRemap cpools bs1 "1.0" 2 1 = some c2bs ∧
      (true = true ↔
        (bs1.osds p).localReservations
          ≤ getMaxBackfillReservations bs1 p ∧
        ∀ o ∈ (computeBackfillSrcsTgts pgb).2,
          (bs1.osds o).remoteReservations
            ≤ getMaxBackfillReservations bs1 o) :=
  (c4_hasRoom_spec cpools c2bs "1.0" 1 2 true c2bs (by rfl)).2 (by decide)

end Theorems

end PgRemapper
